import Mathlib

/-!
# SpeechDialogueFactory: verification of the pipeline orchestration core

A shallow embedding, in Lean 4, of the orchestration core of the
SpeechDialogueFactory repository, together with proofs about it.

The embedded code regions are:

* `src/utils/llm.py`, `LLM.generate_vllm` — the structured generation
  client (fast/guided two-pass decoding with per-item success tracking);
* `src/evaluator/speech/intelligibility_evaluator.py` (`evaluate`) and
  `intelligibility_evaluator_worker.py` — the shard dispatcher: slot
  sizing, chunking, device binding, process monitoring, result merging;
* `src/evaluator/content/content_quality_filter.py`,
  `src/generator/content/dialogue_generator.py` (`_fill_back`) and
  `src/generator/content/scenario_generator.py`
  (`generate_scenario_with_user_input`) — batch-evolution behaviour of
  stages;
* `src/speech_dialogue_factory.py` — the orchestrator:
  `generate_batched_dialogues` (resume from checkpoints, stage loop,
  lazy model lifecycle, finalization and task report) and
  `generate_sample_dialogue` (the interactive entry point).

External effects (LLM backends, files, subprocesses) are modelled as
function parameters (oracles) and event traces; machine behaviour that
the Python source exhibits (for example `zip` truncation, dict insertion
order, `sorted` stability) is reproduced faithfully.
-/

namespace SDF

/-- A Python `enumerate` starting at index `i`: the structural recursion
used throughout for loops of the form `for i, x in enumerate(xs)`. -/
def enumIdx {α : Type} : Nat → List α → List (Nat × α)
  | _, [] => []
  | i, a :: l => (i, a) :: enumIdx (i + 1) l

/-! ## Structured Generation Client (`src/utils/llm.py`, `LLM.generate_vllm`)

The backend is modelled by oracles: `unguided`/`guided` give the raw text
the model returns for one chat prompt under each decoding mode, and
`validate` is `validate_and_parse_json_output` against the pydantic
schema (`none` when the text fails to parse or validate).  A prompt is
`Option P` because `generate_vllm` tests `prompt is None`. -/

/-- The dict returned by `LLM.generate_vllm` / `LLM.generate_api`. -/
structure GenResult (R : Type) where
  responses : List R
  success_indices : List Nat
  failed_indices : List Nat
deriving Repr, DecidableEq

/-- The fast-mode validation loop of `generate_vllm`: over the
enumerated prompts, validate the unguided output for each; collect
`(i, parsed)` in the first component (`success_results`) and
`(i, prompts[i])` in the second (`failed_inputs`), in loop order. -/
def fastPartition {P O R : Type} (validate : O → Option R) (unguided : Option P → O) :
    List (Nat × Option P) → List (Nat × R) × List (Nat × Option P)
  | [] => ([], [])
  | ip :: rest =>
    let pr := fastPartition validate unguided rest
    match validate (unguided ip.2) with
    | some r => ((ip.1, r) :: pr.1, pr.2)
    | none => (pr.1, ip :: pr.2)

/-- The non-fast initialization of `failed_inputs` in `generate_vllm`:
`[(i, prompt) for i, prompt in enumerate(prompts) if prompt is None]`. -/
def noneFailedInputs {P : Type} (prompts : List (Option P)) : List (Nat × Option P) :=
  (enumIdx 0 prompts).filter (fun ip => ip.2.isNone)

/-- The guided-decoding pass of `generate_vllm`: re-validate the guided
output for each failed input, keeping `(i, parsed)` for successes and
dropping (after logging) permanent failures. -/
def guidedPass {P O R : Type} (validate : O → Option R) (guided : Option P → O) :
    List (Nat × Option P) → List (Nat × R)
  | [] => []
  | ip :: rest =>
    match validate (guided ip.2) with
    | some r => (ip.1, r) :: guidedPass validate guided rest
    | none => guidedPass validate guided rest

/-- `success_results.sort(key=lambda x: x[0])`. -/
def pairKeyLE {R : Type} (a b : Nat × R) : Prop := a.1 ≤ b.1

instance {R : Type} : DecidableRel (pairKeyLE (R := R)) := fun a b => Nat.decLe a.1 b.1

instance {R : Type} : IsTotal (Nat × R) pairKeyLE :=
  ⟨fun a b => Nat.le_total a.1 b.1⟩

instance {R : Type} : IsTrans (Nat × R) pairKeyLE :=
  ⟨fun _ _ _ hab hbc => Nat.le_trans hab hbc⟩

/-- `LLM.generate_vllm` with a schema (`json_model` not `None`):
depending on `fast`, either run the unguided pass over all prompts and
collect its failures, or (fast mode off) take as failed inputs exactly
the prompts that are `None`; re-issue the failed inputs with guided
decoding; sort successes by original index; the failed indices are the
complement of the success indices over `range(len(prompts))`. -/
def failedInputs {P O R : Type} (fast : Bool) (validate : O → Option R)
    (unguided : Option P → O) (prompts : List (Option P)) : List (Nat × Option P) :=
  if fast then (fastPartition validate unguided (enumIdx 0 prompts)).2
  else noneFailedInputs prompts

def successResults {P O R : Type} (fast : Bool) (validate : O → Option R)
    (unguided guided : Option P → O) (prompts : List (Option P)) : List (Nat × R) :=
  List.insertionSort pairKeyLE
    ((if fast then (fastPartition validate unguided (enumIdx 0 prompts)).1 else []) ++
      guidedPass validate guided (failedInputs fast validate unguided prompts))

def generate_vllm {P O R : Type} (fast : Bool) (validate : O → Option R)
    (unguided guided : Option P → O) (prompts : List (Option P)) : GenResult R :=
  let sr := successResults fast validate unguided guided prompts
  { responses := sr.map Prod.snd
    success_indices := sr.map Prod.fst
    failed_indices := (List.range prompts.length).filter
      (fun i => decide (¬ i ∈ sr.map Prod.fst)) }

/-- The prompts actually re-issued to guided decoding:
`[prompt for _, prompt in failed_inputs]`. -/
def guidedPrompts {P O R : Type} (fast : Bool) (validate : O → Option R)
    (unguided : Option P → O) (prompts : List (Option P)) : List (Option P) :=
  (failedInputs fast validate unguided prompts).map Prod.snd

/-- The base (unsorted) success list of `generate_vllm`. -/
def successBase {P O R : Type} (fast : Bool) (validate : O → Option R)
    (unguided guided : Option P → O) (prompts : List (Option P)) : List (Nat × R) :=
  (if fast then (fastPartition validate unguided (enumIdx 0 prompts)).1 else []) ++
    guidedPass validate guided (failedInputs fast validate unguided prompts)

/-! ## Dialogue records (`src/data_classes/dialogue.py`, as used by the
orchestration core)

Field payloads are opaque strings; the orchestration core never looks
inside them, it only writes each stage's field. -/

structure Dialogue where
  scenario : Option String := none
  metadata : Option String := none
  script : Option String := none
  conversation : Option String := none
  consistency_evaluation : Option String := none
  coherence_evaluation : Option String := none
  naturalness_evaluation : Option String := none
  dialogue_audio : Option String := none
  intelligibility_evaluation : Option String := none
  speaker_consistency_evaluation : Option String := none
  speech_quality_evaluation : Option String := none
  dialogue_id : Option String := none
deriving Repr, DecidableEq

/-! ## Shard Dispatcher
(`src/evaluator/speech/intelligibility_evaluator.py`, `evaluate`, and
`intelligibility_evaluator_worker.py`) -/

/-- `total_num_processes = num_workers * n_gpus`, then
`if total_num_processes > num_dialogues: total_num_processes = num_dialogues`. -/
def totalSlotsOf (gpus workers n : Nat) : Nat :=
  let t := workers * gpus
  if t > n then n else t

/-- The value of `chunk_size = max(1, num_dialogues // total_num_processes + 1)`
when `total_num_processes > 0`; the raising behaviour of the Python
division itself is `chunkSizeOf?`. -/
def chunkSizeOf (n slots : Nat) : Nat :=
  max 1 (n / slots + 1)

/-- `chunk_size = max(1, num_dialogues // total_num_processes + 1)`
including the error path: the division raises `ZeroDivisionError` when
`total_num_processes = 0` — which happens exactly when the item list is
empty or `num_workers * n_gpus = 0` — modelled as `none`. -/
def chunkSizeOf? (n slots : Nat) : Option Nat :=
  if slots = 0 then none else some (chunkSizeOf n slots)

/-- `dialogue_chunks = [dialogues[i : i + chunk_size] for i in range(0, n, chunk_size)]`:
contiguous chunks in original order.  Structural recursion on a fuel
bounded by the list length (enough for any `cs ≥ 1`). -/
def chunkListAux {α : Type} (cs : Nat) : Nat → List α → List (List α)
  | 0, _ => []
  | _ + 1, [] => []
  | fuel + 1, l => l.take cs :: chunkListAux cs fuel (l.drop cs)

def chunkList {α : Type} (cs : Nat) (l : List α) : List (List α) :=
  chunkListAux cs l.length l

/-- `env["CUDA_VISIBLE_DEVICES"] = str(i % n_gpus)` for chunk `i`. -/
def deviceOf (i gpus : Nat) : Nat := i % gpus

/-- The worker's `evaluate` loop
(`intelligibility_evaluator_worker.py`): for each dialogue of its input
shard, in order, attach the intelligibility evaluation produced by the
model (modelled by the oracle `evalFn`). -/
def workerRun (evalFn : Dialogue → String) (chunk : List Dialogue) : List Dialogue :=
  chunk.map (fun d => { d with intelligibility_evaluation := some (evalFn d) })

/-- The dispatcher's happy path: split into chunks, run one worker per
chunk, read the output shards back in shard order and concatenate
(`final_dialogues.extend(dialogues_chunk)`). -/
def dispatcherRun (evalFn : Dialogue → String) (gpus workers : Nat)
    (dialogues : List Dialogue) : List Dialogue :=
  let slots := totalSlotsOf gpus workers dialogues.length
  let cs := chunkSizeOf dialogues.length slots
  ((chunkList cs dialogues).map (workerRun evalFn)).flatten

/-- The dispatcher's happy path including the chunk-size error path:
`evaluate` raises (`none`) before splitting anything when the clamped
slot count is zero (empty batch, or no usable worker slots);
otherwise it splits, runs the workers and merges as `dispatcherRun`. -/
def dispatcherRun? (evalFn : Dialogue → String) (gpus workers : Nat)
    (dialogues : List Dialogue) : Option (List Dialogue) :=
  match chunkSizeOf? dialogues.length (totalSlotsOf gpus workers dialogues.length) with
  | none => none
  | some cs => some (((chunkList cs dialogues).map (workerRun evalFn)).flatten)

/-- A worker process whose per-dialogue model call can raise
(`evalFn?` returns `none`): the process writes its output snapshot only
if the whole loop completes; an exception leaves no output file. -/
def workerTry (evalFn? : Dialogue → Option String) : List Dialogue → Option (List Dialogue)
  | [] => some []
  | d :: rest =>
    match evalFn? d with
    | none => none
    | some ev =>
      match workerTry evalFn? rest with
      | none => none
      | some rest' => some ({ d with intelligibility_evaluation := some ev } :: rest')

/-- The worker process's exit status: `0` on a completed run, nonzero
when the interpreter dies on an exception. -/
def workerExit (evalFn? : Dialogue → Option String) (chunk : List Dialogue) : Nat :=
  match workerTry evalFn? chunk with
  | some _ => 0
  | none => 1

/-- Reading the output snapshots back in shard order
(`Dialogue.load_batch_from_pickle(output_file)` for each): a missing
snapshot raises, aborting the stage (`none`). -/
def mergeOutputs : List (Option (List Dialogue)) → Option (List Dialogue)
  | [] => some []
  | o :: rest =>
    match o with
    | none => none
    | some c =>
      match mergeOutputs rest with
      | none => none
      | some r => some (c ++ r)

/-- The dispatcher including worker failure: the merged result is
available only if every shard's worker completed. -/
def dispatcherTry (evalFn? : Dialogue → Option String) (gpus workers : Nat)
    (dialogues : List Dialogue) : Option (List Dialogue) :=
  let slots := totalSlotsOf gpus workers dialogues.length
  let cs := chunkSizeOf dialogues.length slots
  mergeOutputs ((chunkList cs dialogues).map (workerTry evalFn?))

/-- A launched worker process, for the monitoring loop: its pid, the
polling round at which it is first seen exited, and its exit status. -/
structure Proc where
  pid : Nat
  finish : Nat
  code : Nat
deriving Repr, DecidableEq

/-- The monitor loop of `evaluate`: `while processes:` poll every
process; those that have exited are logged (pid and return code) and
removed; sleep and repeat.  One fuel unit per polling round. -/
def monitorRounds : Nat → Nat → List Proc → List (Nat × Nat)
  | 0, _, _ => []
  | _ + 1, _, [] => []
  | fuel + 1, r, procs =>
    (procs.filter (fun p => p.finish ≤ r)).map (fun p => (p.pid, p.code)) ++
      monitorRounds fuel (r + 1) (procs.filter (fun p => ¬ p.finish ≤ r))

/-- The monitor run from round 0 with enough polling rounds for every
process to exit. -/
def monitor (procs : List Proc) : List (Nat × Nat) :=
  monitorRounds ((procs.map Proc.finish).foldr max 0 + 1) 0 procs

/-! ## Content stages
(`content_quality_filter.py`, `dialogue_generator.py`,
`coherence_evaluator.py`, `scenario_generator.py`) -/

/-- `ContentQualityFilter.evaluate`: the loop appends to
`filtered_dialogues` exactly the dialogues for which `_is_valid` holds,
in input order.  The threshold test is the oracle `valid`. -/
def contentQualityFilterEvaluate (valid : Dialogue → Bool)
    (dialogues : List Dialogue) : List Dialogue :=
  dialogues.filter valid

/-- `DialogueGenerator._fill_back` / `CoherenceEvaluator._fill_back`:
for `(i, r)` in `zip(success_indices, responses)`, write the stage's
field (`setF`) on `dialogues[i]` and append the updated record. -/
def fillBack {R : Type} (setF : Dialogue → R → Dialogue) (pairs : List (Nat × R))
    (dialogues : List Dialogue) : List Dialogue :=
  pairs.filterMap (fun p => (dialogues.get? p.1).map (fun d => setF d p.2))

def setConversation (d : Dialogue) (r : String) : Dialogue :=
  { d with conversation := some r }

def setCoherence (d : Dialogue) (r : String) : Dialogue :=
  { d with coherence_evaluation := some r }

/-- Erase the field a stage writes, to compare records across the stage. -/
def eraseConversation (d : Dialogue) : Dialogue := { d with conversation := none }

def eraseCoherence (d : Dialogue) : Dialogue := { d with coherence_evaluation := none }

/-- `DialogueGenerator.generate`: one prompt per dialogue
(`_construct_prompt` builds one message list per record), a single
structured-generation call, then `_fill_back`. -/
def dialogueGeneratorGenerate {O : Type} (fast : Bool) (validate : O → Option String)
    (unguided guided : Option String → O) (renderPrompt : Dialogue → String)
    (dialogues : List Dialogue) : List Dialogue :=
  let prompts := dialogues.map (fun d => some (renderPrompt d))
  let out := generate_vllm fast validate unguided guided prompts
  fillBack setConversation (out.success_indices.zip out.responses) dialogues

/-- `CoherenceEvaluator.evaluate` (the `_fill_back`-style evaluators all
share this shape): annotate the successful records with the evaluation
and return exactly those records. -/
def coherenceEvaluatorEvaluate {O : Type} (fast : Bool) (validate : O → Option String)
    (unguided guided : Option String → O) (renderPrompt : Dialogue → String)
    (dialogues : List Dialogue) : List Dialogue :=
  let prompts := dialogues.map (fun d => some (renderPrompt d))
  let out := generate_vllm fast validate unguided guided prompts
  fillBack setCoherence (out.success_indices.zip out.responses) dialogues

/-- A parsed `DialogueScenario` plus the two keys
`generate_scenario_with_user_input` writes into the dict afterwards. -/
structure Scenario where
  core : String
  custom_prompt : String := ""
  dialogue_language : String := ""
deriving Repr, DecidableEq

/-- `list({str(scenario): scenario for scenario in scenarios}.values())`:
a Python dict comprehension keyed by the full rendering of the value
keeps the first position of each distinct key (insertion order), so with
the value itself as key this keeps the first occurrence of each distinct
scenario. -/
def pdedupAcc {α : Type} [DecidableEq α] : List α → List α → List α
  | acc, [] => acc
  | acc, x :: xs => if x ∈ acc then pdedupAcc acc xs else pdedupAcc (acc ++ [x]) xs

def pdedup {α : Type} [DecidableEq α] (l : List α) : List α := pdedupAcc [] l

/-- `ScenarioGenerator._construct_prompt`: one message per scenario from
`dialogue_id = i`, `dialogue_languages[i]` and `custom_prompts[i]`
(rendered by the oracle `render`). -/
def constructScenarioPrompts {P : Type} (render : Nat → String → String → P)
    (numScenarios : Nat) (languages customs : List String) : List (Option P) :=
  (List.range numScenarios).map (fun i =>
    some (render i (languages.getD i "") (customs.getD i "N/A")))

/-- The loop of `generate_scenario_with_user_input` that writes
`scenarios[i]["custom_prompt"] = custom_prompts[i]` and
`scenarios[i]["dialogue_language"] = dialogue_languages[i]`, indexing
the *responses* positionally. -/
def scenarioAnnotated {P O : Type} (fast : Bool) (validate : O → Option String)
    (unguided guided : Option P → O) (render : Nat → String → String → P)
    (numScenarios : Nat) (languages customs : List String) : List Scenario :=
  (enumIdx 0 (generate_vllm fast validate unguided guided
      (constructScenarioPrompts render numScenarios languages customs)).responses).map
    (fun p =>
      { core := p.2, custom_prompt := customs.getD p.1 "",
        dialogue_language := languages.getD p.1 "" : Scenario })

/-- `ScenarioGenerator.generate_scenario_with_user_input`: take only the
`responses` of the structured-generation call, annotate response `i`
positionally with `custom_prompts[i]` and `dialogue_languages[i]`, then
deduplicate exactly-identical scenarios. -/
def scenarioGenerate {P O : Type} (fast : Bool) (validate : O → Option String)
    (unguided guided : Option P → O) (render : Nat → String → String → P)
    (numScenarios : Nat) (languages customs : List String) : List Scenario :=
  pdedup (scenarioAnnotated fast validate unguided guided render numScenarios
    languages customs)

/-! ## Pipeline Orchestrator (`src/speech_dialogue_factory.py`) -/

inductive ResClass where
  | content
  | speech
deriving Repr, DecidableEq

/-- The `input_args` a stage is invoked with: the first stage receives
the scalar generation parameters, every later stage the current batch. -/
inductive StageInput where
  | params (numDialogues : Nat) (languages : List String) (customPrompts : List String)
  | batch (dialogues : List Dialogue)
deriving Repr, DecidableEq

def inputLen : StageInput → Nat
  | .params n _ _ => n
  | .batch b => b.length

/-- One entry of the `pipelines` list: name, resource class, and the
module's `generate`/`evaluate` contract (role-dispatched in the source;
both shapes are `batch in, batch out`). -/
structure Stage where
  name : String
  cls : ResClass
  run : StageInput → List Dialogue

instance : Inhabited Stage := ⟨⟨"", ResClass.content, fun _ => []⟩⟩

/-- Observable actions of a pipeline run, in program order. -/
inductive Event where
  | unloadLLM
  | initMod (name : String)
  | runStage (i : Nat) (name : String)
  | saveCkpt (name : String)
  | saveDialogue (name : String)
  | writeReport
deriving Repr, DecidableEq

/-- `f"dialogues_step_{i}_{name}.pkl"`. -/
def ckptName (i : Nat) (name : String) : String :=
  "dialogues_step_" ++ toString i ++ "_" ++ name ++ ".pkl"

/-- `str.split(sep)` for a one-character separator, over the character
list of the string. -/
def splitChars (sep : Char) : List Char → List (List Char)
  | [] => [[]]
  | c :: rest =>
    let r := splitChars sep rest
    if c = sep then [] :: r
    else
      match r with
      | [] => [[c]]
      | w :: ws => (c :: w) :: ws

def charDigit? (c : Char) : Option Nat :=
  if 48 ≤ c.toNat ∧ c.toNat ≤ 57 then some (c.toNat - 48) else none

/-- `int(s)` on a decimal string (`none` models the `ValueError`). -/
def parseNat? (l : List Char) : Option Nat :=
  if l = [] then none
  else
    l.foldl
      (fun acc c =>
        match acc, charDigit? c with
        | some a, some d => some (a * 10 + d)
        | _, _ => none)
      (some 0)

/-- `int(x.split("_")[2])` — the stage index parsed from a checkpoint
filename. -/
def stepIndexOf (fname : String) : Nat :=
  (parseNat? ((splitChars '_' fname.data).getD 2 [])).getD 0

/-- The key of `sorted(intermediate_files, key=lambda x: int(x.split("_")[2]))`. -/
def ckptLE (a b : String × List Dialogue) : Prop :=
  stepIndexOf a.1 ≤ stepIndexOf b.1

instance : DecidableRel ckptLE := fun x y => Nat.decLe _ _

instance : IsTotal (String × List Dialogue) ckptLE := ⟨fun _ _ => Nat.le_total _ _⟩

instance : IsTrans (String × List Dialogue) ckptLE :=
  ⟨fun _ _ _ hab hbc => Nat.le_trans hab hbc⟩

/-- `sorted(...)[-1]` when the checkpoint directory is nonempty. -/
def resumeChoice (ckptFiles : List (String × List Dialogue)) :
    Option (String × List Dialogue) :=
  if ckptFiles.length > 0 then (List.insertionSort ckptLE ckptFiles).getLast?
  else none

/-- The stage loop `for i in range(start_step, len(pipelines))` of
`generate_batched_dialogues`, producing the final batch and the event
trace.  With lazy loading, a stage whose resource class differs from the
last one first unloads the LLM, then initializes its module. -/
def pipelineLoop (lazy : Bool) : List Stage → Nat → ResClass → StageInput →
    List Dialogue × List Event
  | [], _, _, inp =>
    (match inp with
     | .batch b => b
     | .params _ _ _ => [], [])
  | st :: rest, i, prevCls, inp =>
    let pre := if lazy then
        (if prevCls ≠ st.cls then [Event.unloadLLM] else []) ++ [Event.initMod st.name]
      else []
    let b := st.run inp
    let next := pipelineLoop lazy rest (i + 1) (if lazy then st.cls else prevCls) (.batch b)
    (next.1, pre ++ [Event.runStage i st.name, Event.saveCkpt (ckptName i st.name)]
      ++ next.2)

/-- The pure batch evolution of the stage loop (no events). -/
def foldStages : List Stage → StageInput → List Dialogue
  | [], inp =>
    match inp with
    | .batch b => b
    | .params _ _ _ => []
  | st :: rest, inp => foldStages rest (.batch (st.run inp))

def isSpaceChar (c : Char) : Bool :=
  c = ' ' ∨ c = '\t' ∨ c = '\n' ∨ c = '\r'

/-- `str.strip()`: drop whitespace from both ends. -/
def pyStrip (s : String) : String :=
  String.mk (((s.data.dropWhile isSpaceChar).reverse.dropWhile isSpaceChar).reverse)

/-- `prompts = [p.strip() for p in f.readlines() if p.strip()]`. -/
def processPromptLines (lines : List String) : List String :=
  (lines.map pyStrip).filter (fun p => !(p == ""))

/-- `prompts = [[prompt] * num_dialogues_per_prompt for prompt in prompts]`
flattened. -/
def replicatePrompts (k : Nat) (prompts : List String) : List String :=
  (prompts.map (fun p => List.replicate k p)).flatten

structure TaskReport where
  task_id : String
  num_planned_dialogues : Nat
  num_generated_dialogues : Nat
  output_dir : String
deriving Repr, DecidableEq

/-- `dialogue.dialogue_id = str(i)` for each final position `i`. -/
def assignIds (dialogues : List Dialogue) : List Dialogue :=
  (enumIdx 0 dialogues).map (fun p => { p.2 with dialogue_id := some (toString p.1) })

/-- `dialogue.save_to_pickle(f"dialogue_{i}.pkl")` for each record. -/
def saveEvents (dialogues : List Dialogue) : List Event :=
  (enumIdx 0 dialogues).map (fun p =>
    Event.saveDialogue ("dialogue_" ++ toString p.1 ++ ".pkl"))

/-- `SpeechDialogueFactory.generate_batched_dialogues`: read and
replicate the prompts, resume from the highest-indexed checkpoint if any
checkpoint file exists, run the remaining stages, assign final ids, save
every record and write the task report. -/
def generate_batched (lazy : Bool) (stages : List Stage)
    (taskId outputDir language : String) (lines : List String) (k : Nat)
    (ckptFiles : List (String × List Dialogue)) :
    TaskReport × List Dialogue × List Event :=
  let prompts := replicatePrompts k (processPromptLines lines)
  let n := prompts.length
  let start_prev_inp :=
    match resumeChoice ckptFiles with
    | none => (0, ResClass.content, StageInput.params n (List.replicate n language) prompts)
    | some lastF =>
      let m := stepIndexOf lastF.1
      (m + 1, (stages.getD m default).cls, StageInput.batch lastF.2)
  let res := pipelineLoop lazy (stages.drop start_prev_inp.1) start_prev_inp.1
    start_prev_inp.2.1 start_prev_inp.2.2
  let withIds := assignIds res.1
  let report : TaskReport :=
    { task_id := taskId
      num_planned_dialogues := n
      num_generated_dialogues := withIds.length
      output_dir := outputDir ++ "/" ++ taskId }
  (report, withIds, res.2 ++ saveEvents withIds ++ [Event.writeReport])

/-- The batches produced by the successive stages of the interactive
entry point. -/
def sampleBatches : List Stage → StageInput → List (List Dialogue)
  | [], _ => []
  | st :: rest, inp =>
    let b := st.run inp
    b :: sampleBatches rest (.batch b)

/-- The stage loop of `generate_sample_dialogue`: when a progress
callback is installed, the per-stage payload reads `dialogues[0]`, which
raises `IndexError` on an empty batch. -/
def sampleLoop (hasCallback : Bool) : List Stage → StageInput → List Dialogue →
    Except String (List Dialogue)
  | [], _, cur => .ok cur
  | st :: rest, inp, _ =>
    let b := st.run inp
    if hasCallback = true ∧ b = [] then .error "IndexError: dialogues[0]"
    else sampleLoop hasCallback rest (.batch b) b

/-- `SpeechDialogueFactory.generate_sample_dialogue`: run the stages,
assign ids, and return `dialogues[0]` — which raises on an empty final
batch. -/
def generate_sample (hasCallback : Bool) (stages : List Stage) (inp : StageInput) :
    Except String Dialogue :=
  match sampleLoop hasCallback stages inp [] with
  | .error e => .error e
  | .ok final =>
    match assignIds final with
    | [] => .error "IndexError: dialogues[0]"
    | d :: _ => .ok d

/-- Modules initialized unconditionally in
`SpeechDialogueFactory.__init__` (lines 128–147). -/
def ctorAlwaysModules : List String :=
  ["LLM", "ScenarioGenerator", "MetadataGenerator", "ScriptGenerator",
   "DialogueGenerator", "CoherenceEvaluator", "ConsistencyEvaluator",
   "NaturalnessEvaluator", "ContentQualityFilter", "SpeechQualityFilter"]

/-- Modules initialized in `__init__` only when `lazy_load` is off
(lines 152–156). -/
def ctorSpeechModules : List String :=
  ["TTS", "IntelligibilityEvaluator", "SpeakerConsistencyEvaluator",
   "SpeechQualityEvaluator"]

/-- The module initializations performed by the constructor. -/
def ctorInitEvents (lazy : Bool) : List Event :=
  ctorAlwaysModules.map Event.initMod ++
    (if lazy then [] else ctorSpeechModules.map Event.initMod)

/-- The module behind each stage of the batch pipeline (`pipelines` in
`generate_batched_dialogues`). -/
def batchStageNames : List String :=
  ["ScenarioGenerator", "MetadataGenerator", "ScriptGenerator", "DialogueGenerator",
   "ConsistencyEvaluator", "CoherenceEvaluator", "NaturalnessEvaluator",
   "ContentQualityFilter", "TTS", "IntelligibilityEvaluator",
   "SpeakerConsistencyEvaluator", "SpeechQualityEvaluator", "SpeechQualityFilter"]

/-- The resource class last loaded before stage `j` runs (the loop
variable `last_process_type`): the initial class for the first executed
stage, afterwards the class of the preceding stage. -/
def prevClassAt (initCls : ResClass) (stages : List Stage) : Nat → ResClass
  | 0 => initCls
  | j + 1 => (stages.getD j default).cls

def isRunEvent : Event → Bool
  | .runStage _ _ => true
  | _ => false

/-- The `runStage` events of a trace, in order: the stages a run executes. -/
def runEvents (evs : List Event) : List Event := evs.filter isRunEvent

/-! ## Lemmas and claim theorems -/

theorem enumIdx_map_fst {α : Type} (i : Nat) (l : List α) :
    (enumIdx i l).map Prod.fst = List.range' i l.length := by
  induction l generalizing i with
  | nil => rfl
  | cons a l ih => simp [enumIdx, List.range', ih]

theorem enumIdx_length {α : Type} (i : Nat) (l : List α) :
    (enumIdx i l).length = l.length := by
  induction l generalizing i with
  | nil => rfl
  | cons a l ih => simp [enumIdx, ih]

theorem mem_enumIdx_bounds {α : Type} {i : Nat} {l : List α} {p : Nat × α}
    (h : p ∈ enumIdx i l) : i ≤ p.1 ∧ p.1 < i + l.length := by
  induction l generalizing i with
  | nil => cases h
  | cons a l ih =>
    rcases List.mem_cons.mp h with h | h
    · subst h
      constructor
      · exact Nat.le_refl _
      · simp [List.length_cons]
    · have := ih h
      rw [List.length_cons]
      omega

theorem enumIdx_fst_nodup {α : Type} (i : Nat) (l : List α) :
    ((enumIdx i l).map Prod.fst).Nodup := by
  rw [enumIdx_map_fst]
  exact List.nodup_range' _ _

theorem mem_enumIdx_get {α : Type} {i : Nat} {l : List α} {p : Nat × α}
    (h : p ∈ enumIdx i l) : l.get? (p.1 - i) = some p.2 := by
  induction l generalizing i with
  | nil => cases h
  | cons a l ih =>
    rcases List.mem_cons.mp h with h | h
    · subst h
      simp
    · have hb := mem_enumIdx_bounds h
      have := ih h
      have hgt : p.1 - i = (p.1 - (i + 1)) + 1 := by omega
      rw [hgt]
      simpa using this

theorem fastPartition_fst {P O R : Type} (validate : O → Option R)
    (unguided : Option P → O) (l : List (Nat × Option P)) :
    (fastPartition validate unguided l).1 =
      l.filterMap (fun ip => (validate (unguided ip.2)).map (fun r => (ip.1, r))) := by
  induction l with
  | nil => rfl
  | cons ip rest ih =>
    simp only [fastPartition, List.filterMap_cons]
    cases h : validate (unguided ip.2) with
    | none => simpa [h] using ih
    | some r => simpa [h] using ih

theorem fastPartition_snd {P O R : Type} (validate : O → Option R)
    (unguided : Option P → O) (l : List (Nat × Option P)) :
    (fastPartition validate unguided l).2 =
      l.filter (fun ip => (validate (unguided ip.2)).isNone) := by
  induction l with
  | nil => rfl
  | cons ip rest ih =>
    simp only [fastPartition, List.filter_cons]
    cases h : validate (unguided ip.2) with
    | none => simpa [h] using ih
    | some r => simpa [h] using ih

theorem guidedPass_eq_filterMap {P O R : Type} (validate : O → Option R)
    (guided : Option P → O) (l : List (Nat × Option P)) :
    guidedPass validate guided l =
      l.filterMap (fun ip => (validate (guided ip.2)).map (fun r => (ip.1, r))) := by
  induction l with
  | nil => rfl
  | cons ip rest ih =>
    simp only [guidedPass, List.filterMap_cons]
    cases h : validate (guided ip.2) with
    | none => simpa [h] using ih
    | some r => simpa [h] using ih

theorem map_fst_filterMap_validate {A R : Type} (g : A → Option R) (l : List (Nat × A)) :
    (l.filterMap (fun ip => (g ip.2).map (fun r => (ip.1, r)))).map Prod.fst
      = (l.filter (fun ip => (g ip.2).isSome)).map Prod.fst := by
  induction l with
  | nil => rfl
  | cons a rest ih =>
    simp only [List.filterMap_cons, List.filter_cons]
    cases h : g a.2 <;> simp [h, ih]

theorem successResults_perm {P O R : Type} (fast : Bool) (validate : O → Option R)
    (unguided guided : Option P → O) (prompts : List (Option P)) :
    (successResults fast validate unguided guided prompts).Perm
      (successBase fast validate unguided guided prompts) :=
  List.perm_insertionSort pairKeyLE _

theorem mem_fst_filter_enum {P : Type} {q : Nat × Option P → Bool}
    {prompts : List (Option P)} {i : Nat}
    (h : i ∈ ((enumIdx 0 prompts).filter q).map Prod.fst) :
    ∃ x ∈ enumIdx 0 prompts, x.1 = i ∧ q x = true := by
  rcases List.mem_map.mp h with ⟨x, hx, hfst⟩
  rcases List.mem_filter.mp hx with ⟨hmem, hq⟩
  exact ⟨x, hmem, hfst, hq⟩

theorem failedInputs_mem_enum {P O R : Type} (fast : Bool) (validate : O → Option R)
    (unguided : Option P → O) (prompts : List (Option P)) {x : Nat × Option P}
    (h : x ∈ failedInputs fast validate unguided prompts) : x ∈ enumIdx 0 prompts := by
  cases fast with
  | true =>
    have h' : x ∈ (fastPartition validate unguided (enumIdx 0 prompts)).2 := h
    rw [fastPartition_snd] at h'
    exact List.mem_of_mem_filter h'
  | false =>
    have h' : x ∈ noneFailedInputs prompts := h
    exact List.mem_of_mem_filter h'

theorem successBase_fst_mem {P O R : Type} (fast : Bool) (validate : O → Option R)
    (unguided guided : Option P → O) (prompts : List (Option P)) {i : Nat}
    (h : i ∈ (successBase fast validate unguided guided prompts).map Prod.fst) :
    ∃ x ∈ enumIdx 0 prompts, x.1 = i := by
  simp only [successBase, List.map_append, List.mem_append] at h
  have hguided : ∀ {j : Nat},
      j ∈ (guidedPass validate guided
        (failedInputs fast validate unguided prompts)).map Prod.fst →
      ∃ x ∈ enumIdx 0 prompts, x.1 = j := by
    intro j hj
    rw [guidedPass_eq_filterMap,
      map_fst_filterMap_validate (fun o => validate (guided o))] at hj
    rcases List.mem_map.mp hj with ⟨x, hx, hfst⟩
    exact ⟨x, failedInputs_mem_enum fast validate unguided prompts
      (List.mem_of_mem_filter hx), hfst⟩
  cases h with
  | inr h => exact hguided h
  | inl h =>
    cases fast with
    | false => simp at h
    | true =>
      have h' : i ∈ ((fastPartition validate unguided (enumIdx 0 prompts)).1).map
          Prod.fst := h
      rw [fastPartition_fst,
        map_fst_filterMap_validate (fun o => validate (unguided o))] at h'
      rcases List.mem_map.mp h' with ⟨x, hx, hfst⟩
      exact ⟨x, List.mem_of_mem_filter hx, hfst⟩

theorem success_indices_lt {P O R : Type} (fast : Bool) (validate : O → Option R)
    (unguided guided : Option P → O) (prompts : List (Option P)) {i : Nat}
    (h : i ∈ (generate_vllm fast validate unguided guided prompts).success_indices) :
    i < prompts.length := by
  have hmem : i ∈ (successBase fast validate unguided guided prompts).map Prod.fst :=
    ((successResults_perm fast validate unguided guided prompts).map Prod.fst).mem_iff.mp h
  rcases successBase_fst_mem fast validate unguided guided prompts hmem with ⟨x, hx, hfst⟩
  have := mem_enumIdx_bounds hx
  omega

theorem successBase_fst_nodup {P O R : Type} (fast : Bool) (validate : O → Option R)
    (unguided guided : Option P → O) (prompts : List (Option P)) :
    ((successBase fast validate unguided guided prompts).map Prod.fst).Nodup := by
  have he : ((enumIdx 0 prompts).map Prod.fst).Nodup := enumIdx_fst_nodup 0 prompts
  have hguided :
      ((guidedPass validate guided (failedInputs fast validate unguided prompts)).map
        Prod.fst).Sublist ((failedInputs fast validate unguided prompts).map Prod.fst) := by
    rw [guidedPass_eq_filterMap,
      map_fst_filterMap_validate (fun o => validate (guided o))]
    exact (List.filter_sublist _).map Prod.fst
  have hfail : ((failedInputs fast validate unguided prompts).map Prod.fst).Sublist
      ((enumIdx 0 prompts).map Prod.fst) := by
    cases fast with
    | true =>
      show (((fastPartition validate unguided (enumIdx 0 prompts)).2).map
        Prod.fst).Sublist _
      rw [fastPartition_snd]
      exact (List.filter_sublist _).map Prod.fst
    | false =>
      show ((noneFailedInputs prompts).map Prod.fst).Sublist _
      exact (List.filter_sublist _).map Prod.fst
  cases fast with
  | false =>
    have hbase : successBase false validate unguided guided prompts =
        guidedPass validate guided (failedInputs false validate unguided prompts) := rfl
    rw [hbase]
    exact (hguided.trans hfail).nodup he
  | true =>
    have hbase : successBase true validate unguided guided prompts =
        (fastPartition validate unguided (enumIdx 0 prompts)).1 ++
          guidedPass validate guided (failedInputs true validate unguided prompts) := rfl
    rw [hbase, List.map_append, List.nodup_append]
    refine ⟨?_, (hguided.trans hfail).nodup he, ?_⟩
    · rw [fastPartition_fst,
        map_fst_filterMap_validate (fun o => validate (unguided o))]
      exact ((List.filter_sublist _).map Prod.fst).nodup he
    · intro i hi hi'
      rw [fastPartition_fst,
        map_fst_filterMap_validate (fun o => validate (unguided o))] at hi
      rcases mem_fst_filter_enum hi with ⟨x, hxmem, hxfst, hxp⟩
      have hi2 : i ∈ ((enumIdx 0 prompts).filter
          (fun ip => (validate (unguided ip.2)).isNone)).map Prod.fst := by
        have hm := hguided.mem hi'
        have hf : failedInputs true validate unguided prompts =
            (fastPartition validate unguided (enumIdx 0 prompts)).2 := rfl
        rw [hf, fastPartition_snd] at hm
        exact hm
      rcases mem_fst_filter_enum hi2 with ⟨y, hymem, hyfst, hyq⟩
      have hxy : x = y :=
        List.inj_on_of_nodup_map he hxmem hymem (by rw [hxfst, hyfst])
      subst hxy
      cases hval : validate (unguided x.2) with
      | none => rw [hval] at hxp; simp at hxp
      | some r => rw [hval] at hyq; simp at hyq

theorem success_indices_nodup {P O R : Type} (fast : Bool) (validate : O → Option R)
    (unguided guided : Option P → O) (prompts : List (Option P)) :
    (generate_vllm fast validate unguided guided prompts).success_indices.Nodup := by
  have hperm := (successResults_perm fast validate unguided guided prompts).map Prod.fst
  exact hperm.nodup_iff.mpr (successBase_fst_nodup fast validate unguided guided prompts)

theorem success_indices_sorted {P O R : Type} (fast : Bool) (validate : O → Option R)
    (unguided guided : Option P → O) (prompts : List (Option P)) :
    (generate_vllm fast validate unguided guided prompts).success_indices.Pairwise
      (· ≤ ·) := by
  have hs : (successResults fast validate unguided guided prompts).Pairwise pairKeyLE :=
    List.sorted_insertionSort pairKeyLE _
  exact hs.map Prod.fst (fun a b hab => hab)

theorem failed_indices_spec {P O R : Type} (fast : Bool) (validate : O → Option R)
    (unguided guided : Option P → O) (prompts : List (Option P)) (i : Nat) :
    i ∈ (generate_vllm fast validate unguided guided prompts).failed_indices ↔
      i < prompts.length ∧
        i ∉ (generate_vllm fast validate unguided guided prompts).success_indices := by
  simp [generate_vllm, List.mem_filter, List.mem_range]

theorem success_failed_length {P O R : Type} (fast : Bool) (validate : O → Option R)
    (unguided guided : Option P → O) (prompts : List (Option P)) :
    (generate_vllm fast validate unguided guided prompts).success_indices.length +
      (generate_vllm fast validate unguided guided prompts).failed_indices.length =
        prompts.length := by
  set res := generate_vllm fast validate unguided guided prompts with hres
  have hnodup : res.success_indices.Nodup :=
    success_indices_nodup fast validate unguided guided prompts
  have hlt : ∀ i ∈ res.success_indices, i < prompts.length := fun i hi =>
    success_indices_lt fast validate unguided guided prompts hi
  have hperm : res.success_indices.Perm
      ((List.range prompts.length).filter (fun i => decide (i ∈ res.success_indices))) := by
    refine (List.perm_ext_iff_of_nodup hnodup ((List.nodup_range _).filter _)).mpr ?_
    intro a
    simp only [List.mem_filter, List.mem_range, decide_eq_true_eq]
    exact ⟨fun h => ⟨hlt a h, h⟩, fun h => h.2⟩
  have hfail : res.failed_indices =
      (List.range prompts.length).filter (fun i => !decide (i ∈ res.success_indices)) := by
    rw [hres]
    simp [generate_vllm]
  rw [hperm.length_eq, hfail]
  rw [← List.length_eq_length_filter_add]
  exact List.length_range _

theorem chunkListAux_flatten {α : Type} (cs : Nat) (hcs : 1 ≤ cs) :
    ∀ (fuel : Nat) (l : List α), l.length ≤ fuel → (chunkListAux cs fuel l).flatten = l
  | 0, l, h => by
    have : l = [] := List.eq_nil_of_length_eq_zero (Nat.le_zero.mp h)
    simp [this, chunkListAux]
  | fuel + 1, [], _ => by simp [chunkListAux]
  | fuel + 1, c :: rest, h => by
    have hrec := chunkListAux_flatten cs hcs fuel ((c :: rest).drop cs) (by
      rw [List.length_drop]
      simp only [List.length_cons] at h ⊢
      omega)
    simp only [chunkListAux, List.flatten_cons, hrec]
    exact List.take_append_drop cs (c :: rest)

theorem chunkList_flatten {α : Type} (cs : Nat) (hcs : 1 ≤ cs) (l : List α) :
    (chunkList cs l).flatten = l :=
  chunkListAux_flatten cs hcs l.length l (Nat.le_refl _)

theorem chunkSizeOf_pos (n slots : Nat) : 1 ≤ chunkSizeOf n slots :=
  Nat.le_max_left _ _

theorem totalSlotsOf_eq_min (gpus workers n : Nat) :
    totalSlotsOf gpus workers n = min (workers * gpus) n := by
  unfold totalSlotsOf
  rcases Nat.lt_or_ge n (workers * gpus) with h | h
  · rw [if_pos h, Nat.min_eq_right (Nat.le_of_lt h)]
  · rw [if_neg (by omega), Nat.min_eq_left h]

theorem dispatcherRun_eq_workerRun (evalFn : Dialogue → String) (gpus workers : Nat)
    (dialogues : List Dialogue) :
    dispatcherRun evalFn gpus workers dialogues = workerRun evalFn dialogues := by
  unfold dispatcherRun workerRun
  rw [← List.map_flatten]
  rw [chunkList_flatten _ (chunkSizeOf_pos _ _)]

theorem mergeOutputs_none {outs : List (Option (List Dialogue))}
    (h : none ∈ outs) : mergeOutputs outs = none := by
  induction outs with
  | nil => cases h
  | cons o rest ih =>
    cases o with
    | none => rfl
    | some c =>
      have hr : none ∈ rest := by
        rcases List.mem_cons.mp h with h' | h'
        · simp at h'
        · exact h'
      simp [mergeOutputs, ih hr]

theorem dispatcherTry_none (evalFn? : Dialogue → Option String) (gpus workers : Nat)
    (dialogues : List Dialogue) {c : List Dialogue}
    (hc : c ∈ chunkList (chunkSizeOf dialogues.length
      (totalSlotsOf gpus workers dialogues.length)) dialogues)
    (hfail : workerExit evalFn? c ≠ 0) :
    dispatcherTry evalFn? gpus workers dialogues = none := by
  have hnone : workerTry evalFn? c = none := by
    unfold workerExit at hfail
    cases h : workerTry evalFn? c with
    | none => rfl
    | some r => rw [h] at hfail; simp at hfail
  unfold dispatcherTry
  exact mergeOutputs_none (by
    rw [← hnone]
    exact List.mem_map_of_mem (workerTry evalFn?) hc)

theorem monitorRounds_perm (fuel r : Nat) (procs : List Proc)
    (hfin : ∀ p ∈ procs, p.finish < r + fuel) (hlow : ∀ p ∈ procs, r ≤ p.finish) :
    (monitorRounds fuel r procs).Perm (procs.map (fun p => (p.pid, p.code))) := by
  induction fuel generalizing r procs with
  | zero =>
    have : procs = [] := by
      cases procs with
      | nil => rfl
      | cons p rest =>
        have h1 := hfin p (List.mem_cons_self _ _)
        have h2 := hlow p (List.mem_cons_self _ _)
        omega
    simp [this, monitorRounds]
  | succ fuel ih =>
    cases procs with
    | nil => simp [monitorRounds]
    | cons p rest =>
      have hsplit :
          monitorRounds (fuel + 1) r (p :: rest) =
            (((p :: rest).filter (fun q => q.finish ≤ r)).map (fun q => (q.pid, q.code)))
              ++ monitorRounds fuel (r + 1)
                ((p :: rest).filter (fun q => ¬ q.finish ≤ r)) := rfl
      rw [hsplit]
      have hrest := ih (r + 1) ((p :: rest).filter (fun q => ¬ q.finish ≤ r))
        (fun q hq => by
          have := hfin q (List.mem_of_mem_filter hq)
          omega)
        (fun q hq => by
          have := List.of_mem_filter hq
          simp only [decide_eq_true_eq] at this
          omega)
      have h1 := List.Perm.append_left
        (((p :: rest).filter (fun q => q.finish ≤ r)).map (fun q => (q.pid, q.code))) hrest
      have h2 : (((p :: rest).filter (fun q => q.finish ≤ r)).map (fun q => (q.pid, q.code)))
          ++ (((p :: rest).filter (fun q => ¬ q.finish ≤ r)).map (fun q => (q.pid, q.code)))
          = (((p :: rest).filter (fun q => q.finish ≤ r)) ++
              ((p :: rest).filter (fun q => ¬ q.finish ≤ r))).map (fun q => (q.pid, q.code)) :=
        (List.map_append _ _ _).symm
      have h3 : ((((p :: rest).filter (fun q => q.finish ≤ r)) ++
          ((p :: rest).filter (fun q => ¬ q.finish ≤ r))).map
            (fun q => (q.pid, q.code))).Perm ((p :: rest).map (fun q => (q.pid, q.code))) := by
        refine List.Perm.map _ ?_
        have hp := List.filter_append_perm (fun q : Proc => decide (q.finish ≤ r)) (p :: rest)
        have hfeq : (fun x : Proc => !decide (x.finish ≤ r)) =
            (fun q : Proc => decide (¬ q.finish ≤ r)) := by
          funext x
          rw [decide_not]
        rw [hfeq] at hp
        exact hp
      exact (h1.trans (h2 ▸ h3))

/-- The monitor loop records every launched process's exit status. -/
theorem monitor_records_all (procs : List Proc) :
    (monitor procs).Perm (procs.map (fun p => (p.pid, p.code))) := by
  refine monitorRounds_perm _ 0 procs (fun p hp => ?_) (fun p _ => Nat.zero_le _)
  have : p.finish ≤ (procs.map Proc.finish).foldr max 0 := by
    have hm : p.finish ∈ procs.map Proc.finish := List.mem_map_of_mem _ hp
    exact List.le_max_of_le (l := procs.map Proc.finish) hm (Nat.le_refl _)
  omega

theorem sorted_getLast_ge {α : Type} {r : α → α → Prop} (hrefl : ∀ x, r x x) :
    ∀ (l : List α) (hne : l ≠ []), l.Sorted r → ∀ x ∈ l, r x (l.getLast hne)
  | [], hne, _, _, _ => absurd rfl hne
  | [a], _, _, x, hx => by
    have hxa : x = a := by simpa using hx
    subst hxa
    exact hrefl x
  | a :: b :: t, _, hs, x, hx => by
    have hne' : b :: t ≠ [] := List.cons_ne_nil _ _
    rw [List.getLast_cons hne']
    rcases List.mem_cons.mp hx with hxa | hxbt
    · subst hxa
      exact (List.pairwise_cons.mp hs).1 _ (List.getLast_mem hne')
    · exact sorted_getLast_ge hrefl (b :: t) hne' (List.pairwise_cons.mp hs).2 x hxbt

/-- `sorted(files, key=...)[-1]` on a nonempty directory picks a file
whose parsed stage index is maximal. -/
theorem resumeChoice_max (ckptFiles : List (String × List Dialogue))
    (hne : ckptFiles ≠ []) :
    ∃ x, resumeChoice ckptFiles = some x ∧ x ∈ ckptFiles ∧
      ∀ y ∈ ckptFiles, stepIndexOf y.1 ≤ stepIndexOf x.1 := by
  have hlen : ckptFiles.length > 0 := List.length_pos.mpr hne
  have hsne : List.insertionSort ckptLE ckptFiles ≠ [] := by
    intro hc
    have := List.perm_insertionSort ckptLE ckptFiles
    rw [hc] at this
    exact hne this.symm.eq_nil
  refine ⟨(List.insertionSort ckptLE ckptFiles).getLast hsne, ?_, ?_, ?_⟩
  · unfold resumeChoice
    rw [if_pos hlen]
    exact List.getLast?_eq_getLast_of_ne_nil hsne
  · exact (List.perm_insertionSort ckptLE ckptFiles).mem_iff.mp (List.getLast_mem hsne)
  · intro y hy
    have hy' : y ∈ List.insertionSort ckptLE ckptFiles :=
      (List.perm_insertionSort ckptLE ckptFiles).mem_iff.mpr hy
    exact sorted_getLast_ge (r := ckptLE) (fun x => Nat.le_refl _) _ hsne
      (List.sorted_insertionSort ckptLE ckptFiles) y hy'

/-- With pairwise-distinct parsed indices and a file of maximal index
`m`, the resume choice is exactly that file. -/
theorem resumeChoice_eq (ckptFiles : List (String × List Dialogue))
    {fm : String} {bm : List Dialogue} {m : Nat}
    (hmem : (fm, bm) ∈ ckptFiles) (hm : stepIndexOf fm = m)
    (hmax : ∀ y ∈ ckptFiles, stepIndexOf y.1 ≤ m)
    (hnodup : (ckptFiles.map (fun f => stepIndexOf f.1)).Nodup) :
    resumeChoice ckptFiles = some (fm, bm) := by
  have hne : ckptFiles ≠ [] := List.ne_nil_of_mem hmem
  rcases resumeChoice_max ckptFiles hne with ⟨x, hch, hxmem, hxmax⟩
  have h1 : stepIndexOf x.1 ≤ m := hmax x hxmem
  have h2 : m ≤ stepIndexOf x.1 := hm ▸ hxmax (fm, bm) hmem
  have hkey : stepIndexOf x.1 = stepIndexOf (fm, bm).1 := by
    simp only []
    omega
  have hx : x = (fm, bm) :=
    List.inj_on_of_nodup_map hnodup hxmem hmem hkey
  rw [hch, hx]

theorem pipelineLoop_fst (lazy : Bool) :
    ∀ (stages : List Stage) (i : Nat) (prevCls : ResClass) (inp : StageInput),
      (pipelineLoop lazy stages i prevCls inp).1 = foldStages stages inp
  | [], _, _, inp => by cases inp <;> rfl
  | st :: rest, i, prevCls, inp => by
    simp only [pipelineLoop, foldStages]
    exact pipelineLoop_fst lazy rest (i + 1) _ _

theorem runEvents_append (l1 l2 : List Event) :
    runEvents (l1 ++ l2) = runEvents l1 ++ runEvents l2 :=
  List.filter_append l1 l2

theorem pipelineLoop_runEvents (lazy : Bool) :
    ∀ (stages : List Stage) (i : Nat) (prevCls : ResClass) (inp : StageInput),
      runEvents (pipelineLoop lazy stages i prevCls inp).2 =
        (enumIdx i stages).map (fun p => Event.runStage p.1 p.2.name)
  | [], _, _, inp => by cases inp <;> rfl
  | st :: rest, i, prevCls, inp => by
    simp only [pipelineLoop, enumIdx, List.map_cons]
    rw [runEvents_append, runEvents_append]
    have hpre : runEvents (if lazy then
        (if prevCls ≠ st.cls then [Event.unloadLLM] else []) ++ [Event.initMod st.name]
        else []) = [] := by
      cases lazy with
      | false => rfl
      | true =>
        by_cases hc : prevCls ≠ st.cls
        · rw [if_pos rfl, if_pos hc]
          rfl
        · rw [if_pos rfl, if_neg hc]
          rfl
    rw [hpre]
    have hmid : runEvents [Event.runStage i st.name, Event.saveCkpt (ckptName i st.name)]
        = [Event.runStage i st.name] := rfl
    rw [hmid, pipelineLoop_runEvents lazy rest (i + 1) _ _]
    rfl

/-- With lazy loading off, the stage loop performs no unload and no
module initialization. -/
theorem pipelineLoop_no_lifecycle :
    ∀ (stages : List Stage) (i : Nat) (prevCls : ResClass) (inp : StageInput)
      (e : Event), e ∈ (pipelineLoop false stages i prevCls inp).2 →
      e ≠ Event.unloadLLM ∧ ∀ nm, e ≠ Event.initMod nm
  | [], _, _, inp, e, he => by cases inp <;> cases he
  | st :: rest, i, prevCls, inp, e, he => by
    simp only [pipelineLoop, if_neg (Bool.false_ne_true), List.nil_append] at he
    rcases List.mem_cons.mp he with h | h
    · subst h
      exact ⟨by simp, fun nm => by simp⟩
    rcases List.mem_cons.mp h with h | h
    · subst h
      exact ⟨by simp, fun nm => by simp⟩
    · exact pipelineLoop_no_lifecycle rest (i + 1) prevCls (.batch (st.run inp)) e h

/-- Every event of the stage loop is a loop event (unload, module
initialization, stage run or checkpoint save): the loop never saves a
final dialogue and never writes the task report. -/
theorem pipelineLoop_events_shape (lazy : Bool) :
    ∀ (stages : List Stage) (i : Nat) (prevCls : ResClass) (inp : StageInput)
      (e : Event), e ∈ (pipelineLoop lazy stages i prevCls inp).2 →
      e ≠ Event.writeReport ∧ ∀ nm, e ≠ Event.saveDialogue nm
  | [], _, _, inp, e, he => by cases inp <;> cases he
  | st :: rest, i, prevCls, inp, e, he => by
    simp only [pipelineLoop, List.append_assoc, List.mem_append] at he
    rcases he with h | h
    · cases lazy with
      | false => simp at h
      | true =>
        rw [if_pos rfl] at h
        rcases List.mem_append.mp h with h | h
        · by_cases hc : prevCls ≠ st.cls
          · rw [if_pos hc] at h
            have : e = Event.unloadLLM := by simpa using h
            subst this
            exact ⟨by simp, fun nm => by simp⟩
          · rw [if_neg hc] at h
            cases h
        · have : e = Event.initMod st.name := by simpa using h
          subst this
          exact ⟨by simp, fun nm => by simp⟩
    rcases h with h | h
    · rcases List.mem_cons.mp h with h | h
      · subst h
        exact ⟨by simp, fun nm => by simp⟩
      · have he2 : e = Event.saveCkpt (ckptName i st.name) := by simpa using h
        subst he2
        exact ⟨by simp, fun nm => by simp⟩
    · exact pipelineLoop_events_shape lazy rest (i + 1) _ (.batch (st.run inp)) e h

/-- The batch can only shrink across a stage whose contract respects
`length(output) ≤ length(input)`. -/
theorem foldStages_length_le :
    ∀ (stages : List Stage) (inp : StageInput),
      (∀ st ∈ stages, ∀ j : StageInput, (st.run j).length ≤ inputLen j) →
      (foldStages stages inp).length ≤ inputLen inp
  | [], inp, _ => by cases inp <;> simp [foldStages, inputLen]
  | st :: rest, inp, h => by
    have h1 : (st.run inp).length ≤ inputLen inp :=
      h st (List.mem_cons_self _ _) inp
    have h2 := foldStages_length_le rest (.batch (st.run inp))
      (fun s hs j => h s (List.mem_cons_of_mem _ hs) j)
    simp only [foldStages]
    exact Nat.le_trans h2 h1

theorem enumIdx_get? {α : Type} (s : Nat) (l : List α) (j : Nat) :
    (enumIdx s l).get? j = (l.get? j).map (fun d => (s + j, d)) := by
  induction l generalizing s j with
  | nil => simp [enumIdx]
  | cons a t ih =>
    cases j with
    | zero => simp [enumIdx]
    | succ j =>
      simp only [enumIdx, List.get?_cons_succ, ih (s + 1) j]
      cases t.get? j <;> simp <;> omega

theorem assignIds_length (l : List Dialogue) : (assignIds l).length = l.length := by
  unfold assignIds
  rw [List.length_map, enumIdx_length]

theorem assignIds_get? (l : List Dialogue) (j : Nat) :
    (assignIds l).get? j =
      (l.get? j).map (fun d => { d with dialogue_id := some (toString j) }) := by
  unfold assignIds
  rw [List.get?_map, enumIdx_get?]
  cases l.get? j <;> simp

theorem enumIdx_map_fst_fun {α β : Type} (s : Nat) (l : List α) (g : Nat → β) :
    (enumIdx s l).map (fun p => g p.1) = (List.range' s l.length).map g := by
  have h1 : (enumIdx s l).map (fun p => g p.1) = ((enumIdx s l).map Prod.fst).map g := by
    rw [List.map_map]
    rfl
  rw [h1, enumIdx_map_fst]

theorem saveEvents_eq (l : List Dialogue) :
    saveEvents l = (List.range l.length).map
      (fun i => Event.saveDialogue ("dialogue_" ++ toString i ++ ".pkl")) := by
  unfold saveEvents
  rw [enumIdx_map_fst_fun 0 l
    (fun i => Event.saveDialogue ("dialogue_" ++ toString i ++ ".pkl")),
    List.range_eq_range']

theorem mem_enumIdx_snd {α : Type} {i : Nat} {l : List α} {p : Nat × α}
    (h : p ∈ enumIdx i l) : p.2 ∈ l := by
  have := mem_enumIdx_get h
  exact List.get?_mem this

theorem filterMap_get?_shift {α : Type} (a : α) (t : List α) :
    ∀ (is : List Nat), (∀ j ∈ is, 0 < j) →
      is.filterMap (fun j => (a :: t).get? j) =
        (is.map (fun j => j - 1)).filterMap (fun j => t.get? j)
  | [], _ => rfl
  | j :: is, hpos => by
    have hj : 0 < j := hpos j (List.mem_cons_self _ _)
    have hrest := filterMap_get?_shift a t is
      (fun j hjm => hpos j (List.mem_cons_of_mem _ hjm))
    obtain ⟨j', rfl⟩ : ∃ j', j = j' + 1 := ⟨j - 1, by omega⟩
    simp only [List.filterMap_cons, List.map_cons, List.get?_cons_succ, hrest]
    rfl

theorem pairwise_lt_pred (is : List Nat) (hpos : ∀ j ∈ is, 0 < j)
    (h : is.Pairwise (· < ·)) : (is.map (fun j => j - 1)).Pairwise (· < ·) := by
  rw [List.pairwise_map]
  refine h.imp_of_mem ?_
  intro a b ha hb hab
  have := hpos a ha
  omega

/-- Selecting entries of `l` at a strictly increasing list of indices is
a sublist of `l`. -/
theorem select_sublist {α : Type} :
    ∀ (l : List α) (is : List Nat), is.Pairwise (· < ·) →
      (is.filterMap (fun i => l.get? i)).Sublist l
  | [], is, _ => by simp
  | a :: t, [], _ => by simp
  | a :: t, i :: is, hp => by
    rcases List.pairwise_cons.mp hp with ⟨hhead, htail⟩
    cases i with
    | zero =>
      have hpos : ∀ j ∈ is, 0 < j := fun j hj => hhead j hj
      simp only [List.filterMap_cons, List.get?_cons_zero]
      rw [filterMap_get?_shift a t is hpos]
      exact (select_sublist t _ (pairwise_lt_pred is hpos htail)).cons₂ a
    | succ k =>
      have hpos : ∀ j ∈ (k + 1) :: is, 0 < j := by
        intro j hj
        rcases List.mem_cons.mp hj with h | h
        · omega
        · have := hhead j h
          omega
      rw [filterMap_get?_shift a t ((k + 1) :: is) hpos]
      exact (select_sublist t _ (pairwise_lt_pred _ hpos hp)).cons a

theorem fillBack_eq_select {R : Type} (setF : Dialogue → R → Dialogue)
    (erase : Dialogue → Dialogue) (hcomm : ∀ d r, erase (setF d r) = erase d)
    (pairs : List (Nat × R)) (ds : List Dialogue) :
    (fillBack setF pairs ds).map erase =
      (pairs.map Prod.fst).filterMap (fun i => (ds.map erase).get? i) := by
  unfold fillBack
  rw [List.map_filterMap]
  have h1 : (fun p : Nat × R => ((ds.get? p.1).map (fun d => setF d p.2)).map erase)
      = fun p : Nat × R => (ds.map erase).get? p.1 := by
    funext p
    rw [Option.map_map]
    have hc : erase ∘ (fun d => setF d p.2) = erase := funext (fun d => hcomm d p.2)
    rw [hc, ← List.get?_map]
  rw [h1]
  exact (List.filterMap_map _ _ _).symm

theorem fillBack_erase_sublist {R : Type} (setF : Dialogue → R → Dialogue)
    (erase : Dialogue → Dialogue) (hcomm : ∀ d r, erase (setF d r) = erase d)
    (pairs : List (Nat × R)) (ds : List Dialogue)
    (hsorted : (pairs.map Prod.fst).Pairwise (· < ·)) :
    ((fillBack setF pairs ds).map erase).Sublist (ds.map erase) := by
  rw [fillBack_eq_select setF erase hcomm pairs ds]
  exact select_sublist _ _ hsorted

theorem fillBack_length {R : Type} (setF : Dialogue → R → Dialogue)
    (pairs : List (Nat × R)) (ds : List Dialogue)
    (hlt : ∀ p ∈ pairs, p.1 < ds.length) :
    (fillBack setF pairs ds).length = pairs.length := by
  induction pairs with
  | nil => rfl
  | cons p rest ih =>
    have hp : p.1 < ds.length := hlt p (List.mem_cons_self _ _)
    rcases List.get?_eq_get hp with hg
    unfold fillBack
    simp only [List.filterMap_cons, hg, Option.map_some']
    rw [List.length_cons]
    have hrest := ih (fun q hq => hlt q (List.mem_cons_of_mem _ hq))
    unfold fillBack at hrest
    rw [hrest, List.length_cons]

/-- The success indices of one structured-generation call, strictly
ascending. -/
theorem success_indices_strict {P O R : Type} (fast : Bool) (validate : O → Option R)
    (unguided guided : Option P → O) (prompts : List (Option P)) :
    (generate_vllm fast validate unguided guided prompts).success_indices.Pairwise
      (· < ·) := by
  have hle := success_indices_sorted fast validate unguided guided prompts
  have hnd := success_indices_nodup fast validate unguided guided prompts
  have := hle.and hnd
  refine this.imp ?_
  intro a b hab
  omega

/-- `zip(success_indices, responses)` recovers the sorted success list. -/
theorem zip_success_responses {P O R : Type} (fast : Bool) (validate : O → Option R)
    (unguided guided : Option P → O) (prompts : List (Option P)) :
    (generate_vllm fast validate unguided guided prompts).success_indices.zip
      (generate_vllm fast validate unguided guided prompts).responses =
      successResults fast validate unguided guided prompts := by
  show ((successResults fast validate unguided guided prompts).map Prod.fst).zip
      ((successResults fast validate unguided guided prompts).map Prod.snd) = _
  rw [List.zip_map']
  simp

theorem pdedupAcc_sublist {α : Type} [DecidableEq α] :
    ∀ (l acc : List α), (pdedupAcc acc l).Sublist (acc ++ l)
  | [], acc => by simp [pdedupAcc]
  | x :: xs, acc => by
    unfold pdedupAcc
    by_cases hx : x ∈ acc
    · rw [if_pos hx]
      refine (pdedupAcc_sublist xs acc).trans ?_
      exact List.Sublist.append_left (List.sublist_cons_self x xs) acc
    · rw [if_neg hx]
      have := pdedupAcc_sublist xs (acc ++ [x])
      simpa using this

/-- The dict-comprehension deduplication only removes duplicates: its
result is a sublist of its input. -/
theorem pdedup_sublist {α : Type} [DecidableEq α] (l : List α) :
    (pdedup l).Sublist l := by
  simpa [pdedup] using pdedupAcc_sublist l []

theorem replicatePrompts_length (k : Nat) (l : List String) :
    (replicatePrompts k l).length = l.length * k := by
  induction l with
  | nil => simp [replicatePrompts]
  | cons a t ih =>
    unfold replicatePrompts at ih ⊢
    simp only [List.map_cons, List.flatten_cons, List.length_append,
      List.length_replicate, List.length_cons, ih]
    ring

theorem runEvents_saveEvents (l : List Dialogue) : runEvents (saveEvents l) = [] := by
  unfold runEvents
  rw [List.filter_eq_nil]
  intro e he
  rcases List.mem_map.mp he with ⟨p, _, hpe⟩
  rw [← hpe]
  simp [isRunEvent]

theorem count_writeReport_saveEvents (l : List Dialogue) :
    (saveEvents l).count Event.writeReport = 0 := by
  rw [List.count_eq_zero]
  intro hmem
  rcases List.mem_map.mp hmem with ⟨p, _, hpe⟩
  cases hpe

theorem resumeChoice_nil : resumeChoice [] = none := rfl

theorem prevClassAt_cons (prevCls : ResClass) (st : Stage) (rest : List Stage)
    (j : Nat) : prevClassAt prevCls (st :: rest) (j + 1) = prevClassAt st.cls rest j := by
  cases j with
  | zero => rfl
  | succ j => rfl

/-- Lazy loading: whenever the class of stage `j` differs from the class
last loaded, the trace contains the LLM unload immediately followed by
that stage's module initialization. -/
theorem pipelineLoop_unload_before_init :
    ∀ (stages : List Stage) (i : Nat) (prevCls : ResClass) (inp : StageInput)
      (j : Nat) (hj : j < stages.length),
      prevClassAt prevCls stages j ≠ (stages.get ⟨j, hj⟩).cls →
      ∃ pre suf, (pipelineLoop true stages i prevCls inp).2 =
        pre ++ [Event.unloadLLM, Event.initMod (stages.get ⟨j, hj⟩).name] ++ suf
  | [], _, _, _, j, hj, _ => absurd hj (by simp)
  | st :: rest, i, prevCls, inp, 0, hj, hc => by
    have hrw : (pipelineLoop true (st :: rest) i prevCls inp).2 =
        ((if prevCls ≠ st.cls then [Event.unloadLLM] else []) ++
          [Event.initMod st.name]) ++
          [Event.runStage i st.name, Event.saveCkpt (ckptName i st.name)] ++
          (pipelineLoop true rest (i + 1) st.cls (.batch (st.run inp))).2 := rfl
    have hc0 : prevCls ≠ st.cls := hc
    refine ⟨[], [Event.runStage i st.name, Event.saveCkpt (ckptName i st.name)] ++
      (pipelineLoop true rest (i + 1) st.cls (.batch (st.run inp))).2, ?_⟩
    rw [hrw, if_pos hc0]
    simp
  | st :: rest, i, prevCls, inp, j + 1, hj, hc => by
    have hj' : j < rest.length := by
      have := hj
      simp only [List.length_cons] at this
      omega
    have hc' : prevClassAt st.cls rest j ≠ (rest.get ⟨j, hj'⟩).cls := by
      rw [← prevClassAt_cons prevCls st rest j]
      exact hc
    rcases pipelineLoop_unload_before_init rest (i + 1) st.cls (.batch (st.run inp))
      j hj' hc' with ⟨pre, suf, heq⟩
    have hrw : (pipelineLoop true (st :: rest) i prevCls inp).2 =
        ((if prevCls ≠ st.cls then [Event.unloadLLM] else []) ++
          [Event.initMod st.name]) ++
          [Event.runStage i st.name, Event.saveCkpt (ckptName i st.name)] ++
          (pipelineLoop true rest (i + 1) st.cls (.batch (st.run inp))).2 := rfl
    refine ⟨((if prevCls ≠ st.cls then [Event.unloadLLM] else []) ++
      [Event.initMod st.name]) ++
      [Event.runStage i st.name, Event.saveCkpt (ckptName i st.name)] ++ pre, suf, ?_⟩
    rw [hrw, heq]
    simp

/-- The interactive loop errors as soon as a stage returns an empty
batch (the progress payload indexes `dialogues[0]`). -/
theorem sample_error_of_empty :
    ∀ (stages : List Stage) (inp : StageInput),
      [] ∈ sampleBatches stages inp →
      ∃ e, generate_sample true stages inp = Except.error e
  | [], inp, h => absurd h (by simp [sampleBatches])
  | st :: rest, inp, h => by
    by_cases hb : st.run inp = []
    · refine ⟨"IndexError: dialogues[0]", ?_⟩
      unfold generate_sample
      have hloop : sampleLoop true (st :: rest) inp [] =
          Except.error "IndexError: dialogues[0]" := by
        unfold sampleLoop
        rw [if_pos ⟨rfl, hb⟩]
      rw [hloop]
    · have hmem : [] ∈ sampleBatches rest (.batch (st.run inp)) := by
        have hx : sampleBatches (st :: rest) inp =
            st.run inp :: sampleBatches rest (.batch (st.run inp)) := rfl
        rw [hx] at h
        rcases List.mem_cons.mp h with h' | h'
        · exact absurd h'.symm hb
        · exact h'
      rcases sample_error_of_empty rest (.batch (st.run inp)) hmem with ⟨e, he⟩
      refine ⟨e, ?_⟩
      cases rest with
      | nil => simp [sampleBatches] at hmem
      | cons r rs =>
        have hstep : sampleLoop true (st :: r :: rs) inp [] =
            sampleLoop true (r :: rs) (.batch (st.run inp)) [] := by
          unfold sampleLoop
          rw [if_neg (fun hcon => hb hcon.2)]
          rfl
        unfold generate_sample at he ⊢
        rw [hstep]
        exact he

/-- C2: Structured Generation Client, fast mode on, schema given: the
unconstrained pass covers all `n` prompts; exactly the prompts whose
unguided output fails validation — and no others — are re-issued with
guided decoding (zero prompts when all validate); `success_indices` and
`failed_indices` are disjoint and their union is `range(n)`; the merged
responses are in ascending order of original index. -/
theorem C2_fast_mode_two_pass {P O R : Type} (ps : List P) (validate : O → Option R)
    (unguided guided : Option P → O) :
    guidedPrompts true validate unguided (ps.map Option.some) =
      ((enumIdx 0 (ps.map Option.some)).filter
        (fun ip => (validate (unguided ip.2)).isNone)).map Prod.snd ∧
    ((∀ p ∈ ps, (validate (unguided (some p))).isSome) →
      guidedPrompts true validate unguided (ps.map Option.some) = []) ∧
    (guidedPrompts true validate unguided (ps.map Option.some)).length =
      ((enumIdx 0 (ps.map Option.some)).filter
        (fun ip => (validate (unguided ip.2)).isNone)).length ∧
    (∀ i, i ∈ (generate_vllm true validate unguided guided
        (ps.map Option.some)).failed_indices ↔
      i < ps.length ∧
        i ∉ (generate_vllm true validate unguided guided
          (ps.map Option.some)).success_indices) ∧
    (∀ i ∈ (generate_vllm true validate unguided guided
        (ps.map Option.some)).success_indices, i < ps.length) ∧
    (generate_vllm true validate unguided guided
        (ps.map Option.some)).success_indices.length +
      (generate_vllm true validate unguided guided
        (ps.map Option.some)).failed_indices.length = ps.length ∧
    (generate_vllm true validate unguided guided
      (ps.map Option.some)).success_indices.Pairwise (· ≤ ·) ∧
    (generate_vllm true validate unguided guided
        (ps.map Option.some)).responses.length =
      (generate_vllm true validate unguided guided
        (ps.map Option.some)).success_indices.length := by
  have hfi : guidedPrompts true validate unguided (ps.map Option.some) =
      ((enumIdx 0 (ps.map Option.some)).filter
        (fun ip => (validate (unguided ip.2)).isNone)).map Prod.snd := by
    show ((fastPartition validate unguided (enumIdx 0 (ps.map Option.some))).2).map
      Prod.snd = _
    rw [fastPartition_snd]
  have hlen : (ps.map Option.some).length = ps.length := List.length_map _ _
  refine ⟨hfi, ?_, by rw [hfi, List.length_map], ?_, ?_, ?_, ?_, ?_⟩
  · intro hall
    rw [hfi]
    have hnil : (enumIdx 0 (ps.map Option.some)).filter
        (fun ip => (validate (unguided ip.2)).isNone) = [] := by
      rw [List.filter_eq_nil]
      intro ip hip
      rcases List.mem_map.mp (mem_enumIdx_snd hip) with ⟨p, hp, hpeq⟩
      have hv := hall p hp
      rw [← hpeq]
      cases hv2 : validate (unguided (some p)) with
      | none => rw [hv2] at hv; simp at hv
      | some r => simp [hv2]
    rw [hnil]
    rfl
  · intro i
    rw [failed_indices_spec, hlen]
  · intro i hi
    have := success_indices_lt true validate unguided guided (ps.map Option.some) hi
    omega
  · rw [← hlen]
    exact success_failed_length true validate unguided guided (ps.map Option.some)
  · exact success_indices_sorted true validate unguided guided (ps.map Option.some)
  · show ((successResults true validate unguided guided (ps.map Option.some)).map
        Prod.snd).length =
      ((successResults true validate unguided guided (ps.map Option.some)).map
        Prod.fst).length
    rw [List.length_map, List.length_map]

/-- C2 witness: with two prompts whose unguided outputs both validate,
the guided pass receives zero prompts. -/
theorem C2_fast_mode_two_pass_witness :
    guidedPrompts true (fun o : Nat => if o % 2 = 0 then some o else none)
      (fun p : Option Nat => 2 * p.getD 0) ([1, 2].map Option.some) = [] := by
  have h := C2_fast_mode_two_pass (O := Nat) (R := Nat) [1, 2]
    (fun o => if o % 2 = 0 then some o else none)
    (fun p => 2 * p.getD 0) (fun p => 2 * p.getD 0)
  exact h.2.1 (by decide)

/-- C6 (evaluation of the code at the failing input): fast mode off and
a schema given, one ordinary (non-`None`) prompt, a backend whose every
output validates: the re-issued set is empty — `failed_inputs` keeps
only prompts that are literally `None` — so no prompt reaches guided
decoding and every index is returned in `failed_indices`, contradicting
both the claim and the code's own fallback documentation. -/
theorem C6_nonfast_guided_skipped :
    guidedPrompts false (fun o : Nat => some o) (fun p : Option Nat => p.getD 0)
      [some 5] = [] ∧
    generate_vllm false (fun o : Nat => some o) (fun p : Option Nat => p.getD 0)
      (fun p : Option Nat => p.getD 0) [some 5] =
      { responses := [], success_indices := [], failed_indices := [0] } := by
  decide

/-- C3 counterexample: at `gpuCount = 2`, `workersPerGpu = 2`, `n = 8`
the code's chunk size is `8 // 4 + 1 = 3`, not `ceil(8 / 4) = 2`, and
the shard sizes are `[3, 3, 2]` — three shards, not four of size 2. -/
theorem C3_counterexample :
    totalSlotsOf 2 2 8 = 4 ∧
    chunkSizeOf 8 (totalSlotsOf 2 2 8) = 3 ∧
    (8 + totalSlotsOf 2 2 8 - 1) / totalSlotsOf 2 2 8 = 2 ∧
    chunkSizeOf 8 (totalSlotsOf 2 2 8) ≠
      (8 + totalSlotsOf 2 2 8 - 1) / totalSlotsOf 2 2 8 ∧
    (chunkList (chunkSizeOf 8 (totalSlotsOf 2 2 8)) (List.range 8)).map List.length
      = [3, 3, 2] := by
  decide

/-- C3 (amended): the dispatcher clamps `totalSlots` to
`min(gpuCount * workersPerGpu, n)`; the chunk size is
`n // totalSlots + 1` (at least 1), which equals `ceil(n / totalSlots)`
exactly when `totalSlots` does not divide `n`; the chunks are contiguous
in original order (concatenating them restores the input); chunk `i` is
bound to device `i mod gpuCount`; in the `gpuCount = 2`,
`workersPerGpu = 2`, `n = 10` scenario the shard sizes are `[3, 3, 3, 1]`
with devices `[0, 1, 0, 1]`. -/
theorem C3_amended_dispatcher_sizing (gpus workers n : Nat)
    (hg : 0 < gpus) (hw : 0 < workers) (hn : 0 < n) :
    totalSlotsOf gpus workers n = min (workers * gpus) n ∧
    0 < totalSlotsOf gpus workers n ∧
    chunkSizeOf n (totalSlotsOf gpus workers n) =
      n / totalSlotsOf gpus workers n + 1 ∧
    (¬ totalSlotsOf gpus workers n ∣ n →
      chunkSizeOf n (totalSlotsOf gpus workers n) =
        (n + totalSlotsOf gpus workers n - 1) / totalSlotsOf gpus workers n) ∧
    (∀ l : List Dialogue,
      (chunkList (chunkSizeOf n (totalSlotsOf gpus workers n)) l).flatten = l) ∧
    (∀ i, deviceOf i gpus = i % gpus) ∧
    (chunkList (chunkSizeOf 10 (totalSlotsOf 2 2 10)) (List.range 10)).map List.length
      = [3, 3, 3, 1] ∧
    (List.range (chunkList (chunkSizeOf 10 (totalSlotsOf 2 2 10))
      (List.range 10)).length).map (fun i => deviceOf i 2) = [0, 1, 0, 1] := by
  have hslots : 0 < totalSlotsOf gpus workers n := by
    rw [totalSlotsOf_eq_min]
    have : 0 < workers * gpus := Nat.mul_pos hw hg
    omega
  have hcs : chunkSizeOf n (totalSlotsOf gpus workers n) =
      n / totalSlotsOf gpus workers n + 1 :=
    Nat.max_eq_right (Nat.le_add_left 1 _)
  refine ⟨totalSlotsOf_eq_min gpus workers n, hslots, hcs, ?_, ?_, fun i => rfl,
    by decide, by decide⟩
  · intro hnd
    rw [hcs]
    set s := totalSlotsOf gpus workers n with hs
    have hmod : n % s ≠ 0 := fun hc => hnd (Nat.dvd_iff_mod_eq_zero.mpr hc)
    have hmlt : n % s < s := Nat.mod_lt n hslots
    have hsplit : n + s - 1 = s * (n / s) + (n % s + s - 1) := by
      have := Nat.div_add_mod n s
      omega
    rw [hsplit, Nat.mul_add_div hslots]
    have hdiv1 : (n % s + s - 1) / s = 1 := by
      refine Nat.div_eq_of_lt_le ?_ ?_
      · omega
      · simp only [Nat.succ_mul]
        omega
    omega
  · intro l
    exact chunkList_flatten _ (chunkSizeOf_pos _ _) l

/-- C3 witness: the amended sizing at the spec's own scenario. -/
theorem C3_amended_dispatcher_sizing_witness :
    totalSlotsOf 2 2 10 = 4 ∧ chunkSizeOf 10 (totalSlotsOf 2 2 10) = 3 := by
  have h := C3_amended_dispatcher_sizing 2 2 10 (by decide) (by decide) (by decide)
  refine ⟨h.1.trans (by decide), h.2.2.1.trans (by decide)⟩

/-- C4 counterexample: on the empty item list (a reachable state — an
all-filtered batch is not an error upstream) the dispatcher raises
`ZeroDivisionError` computing the chunk size (`total_num_processes`
clamps to 0), so no merged batch reconstructs the input: the claim's
round trip fails at `items = []`. -/
theorem C4_counterexample :
    totalSlotsOf 2 2 0 = 0 ∧
    chunkSizeOf? 0 (totalSlotsOf 2 2 0) = none ∧
    dispatcherRun? (fun _ => "e") 2 2 [] = none ∧
    dispatcherRun? (fun _ => "e") 2 2 [] ≠ some [] := by
  refine ⟨rfl, rfl, rfl, by decide⟩

/-- C4 (amended): for every nonempty item list and configuration with a
positive gpu count and workers-per-gpu — elsewhere `evaluate` raises
`ZeroDivisionError` computing the chunk size before any shard exists —
the chunk-size computation succeeds, and the concatenation of the worker
outputs in shard order is the per-record update applied to the whole
input: each input item appears exactly once, in the original order,
none dropped or duplicated, for any `len(items)`/`totalSlots`
combination (`len(items) < totalSlots` clamped with no empty shard,
`totalSlots` not dividing `len(items)` with a smaller last shard). -/
theorem C4_split_merge_round_trip (evalFn : Dialogue → String) (gpus workers : Nat)
    (dialogues : List Dialogue) (hg : 0 < gpus) (hw : 0 < workers)
    (hn : dialogues ≠ []) :
    chunkSizeOf? dialogues.length (totalSlotsOf gpus workers dialogues.length) =
      some (chunkSizeOf dialogues.length
        (totalSlotsOf gpus workers dialogues.length)) ∧
    dispatcherRun? evalFn gpus workers dialogues =
      some (dialogues.map
        (fun d => { d with intelligibility_evaluation := some (evalFn d) })) ∧
    dispatcherRun? evalFn gpus workers dialogues =
      some (dispatcherRun evalFn gpus workers dialogues) ∧
    (dispatcherRun evalFn gpus workers dialogues).length = dialogues.length ∧
    (chunkList (chunkSizeOf dialogues.length
      (totalSlotsOf gpus workers dialogues.length)) dialogues).flatten = dialogues := by
  have hlen : 0 < dialogues.length := List.length_pos.mpr hn
  have hslots : 0 < totalSlotsOf gpus workers dialogues.length := by
    rw [totalSlotsOf_eq_min]
    have : 0 < workers * gpus := Nat.mul_pos hw hg
    omega
  have hcs? : chunkSizeOf? dialogues.length
      (totalSlotsOf gpus workers dialogues.length) =
      some (chunkSizeOf dialogues.length
        (totalSlotsOf gpus workers dialogues.length)) := by
    unfold chunkSizeOf?
    rw [if_neg (Nat.pos_iff_ne_zero.mp hslots)]
  have hrun? : dispatcherRun? evalFn gpus workers dialogues =
      some (dispatcherRun evalFn gpus workers dialogues) := by
    unfold dispatcherRun?
    rw [hcs?]
    rfl
  refine ⟨hcs?, ?_, hrun?, ?_, chunkList_flatten _ (chunkSizeOf_pos _ _) dialogues⟩
  · rw [hrun?, dispatcherRun_eq_workerRun]
    rfl
  · rw [dispatcherRun_eq_workerRun]
    unfold workerRun
    rw [List.length_map]

/-- C4 witness: a one-record batch on a 2×2 configuration round-trips
through the dispatcher with its evaluation attached. -/
theorem C4_split_merge_round_trip_witness :
    dispatcherRun? (fun _ => "w") 2 2 [({} : Dialogue)] =
      some [{ intelligibility_evaluation := some "w" }] := by
  have h := C4_split_merge_round_trip (fun _ => "w") 2 2 [({} : Dialogue)]
    (by decide) (by decide) (by decide)
  exact h.2.1.trans (by decide)

/-- C5: the dispatcher polls until every worker process has exited and
records each exit status; a worker that exits nonzero (its output
snapshot missing) makes the stage's merge fail, aborting the run — no
partial result is produced. -/
theorem C5_shard_failure_fatal (evalFn? : Dialogue → Option String)
    (gpus workers : Nat) (dialogues : List Dialogue) (procs : List Proc) :
    (monitor procs).Perm (procs.map (fun p => (p.pid, p.code))) ∧
    (∀ c ∈ chunkList (chunkSizeOf dialogues.length
        (totalSlotsOf gpus workers dialogues.length)) dialogues,
      workerExit evalFn? c ≠ 0 →
      dispatcherTry evalFn? gpus workers dialogues = none) :=
  ⟨monitor_records_all procs,
    fun _ hc hf => dispatcherTry_none evalFn? gpus workers dialogues hc hf⟩

/-- C5 witness: a single shard whose worker raises on its only record
aborts the whole stage. -/
theorem C5_shard_failure_fatal_witness :
    dispatcherTry (fun _ => none) 1 1 [({} : Dialogue)] = none := by
  have h := C5_shard_failure_fatal (fun _ => none) 1 1 [({} : Dialogue)] []
  exact h.2 [({} : Dialogue)] (by decide) (by decide)

/-- C7 counterexample: the scenario generator, given two identical
prompts whose generations both succeed with identical scenarios, returns
one record instead of two although no item failed structured generation
(`failed_indices = []`): a generator drops a record for a reason other
than structured-generation failure (the exact-duplicate deduplication). -/
theorem C7_counterexample :
    (scenarioGenerate true (fun o : String => some o)
      (fun p : Option String => p.getD "") (fun p : Option String => p.getD "")
      (fun _ _ _ => "S") 2 ["English", "English"] ["c", "c"]).length = 1 ∧
    (generate_vllm true (fun o : String => some o)
      (fun p : Option String => p.getD "") (fun p : Option String => p.getD "")
      (constructScenarioPrompts (fun _ _ _ => "S") 2 ["English", "English"]
        ["c", "c"])).failed_indices = [] ∧
    (1 : Nat) ≠ 2 := by
  refine ⟨by decide, by decide, by decide⟩

/-- C7 (amended): every evaluator/filter stage returns a subsequence of
its input batch — outright for the threshold filters, and up to the one
evaluation field the stage writes for the `_fill_back` evaluators — with
relative order preserved; the `_fill_back` generators drop exactly the
records whose structured generation failed (their output size plus the
failed-index count is the input size, and nothing is dropped when no
index failed); the scenario generator additionally deduplicates
exactly-identical scenarios, returning a subsequence of its annotated
responses. -/
theorem C7_amended_batch_evolution {O P2 O2 : Type} (fast fast2 : Bool)
    (validate : O → Option String) (unguided guided : Option String → O)
    (renderPrompt : Dialogue → String) (valid : Dialogue → Bool) (ds : List Dialogue)
    (v2 : O2 → Option String) (u2 g2 : Option P2 → O2)
    (render : Nat → String → String → P2) (num : Nat) (langs customs : List String) :
    (contentQualityFilterEvaluate valid ds).Sublist ds ∧
    ((coherenceEvaluatorEvaluate fast validate unguided guided renderPrompt ds).map
      eraseCoherence).Sublist (ds.map eraseCoherence) ∧
    ((dialogueGeneratorGenerate fast validate unguided guided renderPrompt ds).map
      eraseConversation).Sublist (ds.map eraseConversation) ∧
    (dialogueGeneratorGenerate fast validate unguided guided renderPrompt ds).length +
      (generate_vllm fast validate unguided guided
        (ds.map (fun d => some (renderPrompt d)))).failed_indices.length = ds.length ∧
    ((generate_vllm fast validate unguided guided
        (ds.map (fun d => some (renderPrompt d)))).failed_indices = [] →
      (dialogueGeneratorGenerate fast validate unguided guided renderPrompt ds).length
        = ds.length) ∧
    (scenarioGenerate fast2 v2 u2 g2 render num langs customs).Sublist
      (scenarioAnnotated fast2 v2 u2 g2 render num langs customs) := by
  have hstrict := success_indices_strict fast validate unguided guided
    (ds.map (fun d => some (renderPrompt d)))
  have hzip := zip_success_responses fast validate unguided guided
    (ds.map (fun d => some (renderPrompt d)))
  have hsorted : (((generate_vllm fast validate unguided guided
      (ds.map (fun d => some (renderPrompt d)))).success_indices.zip
        (generate_vllm fast validate unguided guided
          (ds.map (fun d => some (renderPrompt d)))).responses).map
      Prod.fst).Pairwise (· < ·) := by
    rw [hzip]
    exact hstrict
  have hlt : ∀ p ∈ (generate_vllm fast validate unguided guided
      (ds.map (fun d => some (renderPrompt d)))).success_indices.zip
        (generate_vllm fast validate unguided guided
          (ds.map (fun d => some (renderPrompt d)))).responses, p.1 < ds.length := by
    intro p hp
    have hfst : p.1 ∈ (generate_vllm fast validate unguided guided
        (ds.map (fun d => some (renderPrompt d)))).success_indices :=
      List.mem_map_of_mem Prod.fst (hzip ▸ hp)
    have := success_indices_lt fast validate unguided guided
      (ds.map (fun d => some (renderPrompt d))) hfst
    rw [List.length_map] at this
    exact this
  have hflen : (dialogueGeneratorGenerate fast validate unguided guided
      renderPrompt ds).length =
      (generate_vllm fast validate unguided guided
        (ds.map (fun d => some (renderPrompt d)))).success_indices.length := by
    show (fillBack setConversation _ ds).length = _
    rw [fillBack_length setConversation _ ds hlt, hzip]
    show (successResults fast validate unguided guided _).length = _
    show _ = ((successResults fast validate unguided guided _).map Prod.fst).length
    rw [List.length_map]
  refine ⟨List.filter_sublist ds, ?_, ?_, ?_, ?_,
    pdedup_sublist (scenarioAnnotated fast2 v2 u2 g2 render num langs customs)⟩
  · exact fillBack_erase_sublist setCoherence eraseCoherence (fun d r => rfl) _ ds hsorted
  · exact fillBack_erase_sublist setConversation eraseConversation (fun d r => rfl) _ ds
      hsorted
  · rw [hflen]
    have := success_failed_length fast validate unguided guided
      (ds.map (fun d => some (renderPrompt d)))
    rw [List.length_map] at this
    exact this
  · intro hf
    rw [hflen]
    have := success_failed_length fast validate unguided guided
      (ds.map (fun d => some (renderPrompt d)))
    rw [List.length_map, hf] at this
    simpa using this

/-- C7 witness: a one-record batch whose generation succeeds is returned
whole by the dialogue generator. -/
theorem C7_amended_batch_evolution_witness :
    (dialogueGeneratorGenerate true (fun o : Nat => some (toString o))
      (fun p : Option String => (p.getD "").length)
      (fun p : Option String => (p.getD "").length)
      (fun _ => "x") [({} : Dialogue)]).length = 1 := by
  have h := @C7_amended_batch_evolution Nat Nat Nat true true
    (fun o : Nat => some (toString o))
    (fun p : Option String => (p.getD "").length)
    (fun p : Option String => (p.getD "").length)
    (fun _ => "x") (fun _ => true) [({} : Dialogue)]
    (fun o : Nat => some (toString o)) (fun p => p.getD 0) (fun p => p.getD 0)
    (fun _ _ _ => 0) 0 [] []
  exact h.2.2.2.2.1 (by decide)

/-- C8: end-of-run postcondition of the batch pipeline on a fresh run:
the task report carries the task id, `numPlanned = prompt lines ×
num_dialogues_per_prompt`, `numGenerated = final batch length` (never
more than planned when every stage's contract is size-nonincreasing,
and possibly 0 — an all-filtered run still completes); each surviving
record at final position `i` carries `dialogue_id = str(i)` and is
persisted as `dialogue_i`; the report is written exactly once, after
the per-record saves. -/
theorem C8_end_of_run_report (lazy : Bool) (stages : List Stage)
    (taskId outputDir language : String) (lines : List String) (k : Nat)
    (hmono : ∀ st ∈ stages, ∀ j : StageInput, (st.run j).length ≤ inputLen j) :
    let r := generate_batched lazy stages taskId outputDir language lines k []
    r.1.task_id = taskId ∧
    r.1.num_planned_dialogues = (processPromptLines lines).length * k ∧
    r.1.num_generated_dialogues = r.2.1.length ∧
    r.1.num_generated_dialogues ≤ r.1.num_planned_dialogues ∧
    r.1.output_dir = outputDir ++ "/" ++ taskId ∧
    (∀ j d, r.2.1.get? j = some d → d.dialogue_id = some (toString j)) ∧
    r.2.2 = (pipelineLoop lazy stages 0 ResClass.content
        (StageInput.params (replicatePrompts k (processPromptLines lines)).length
          (List.replicate (replicatePrompts k (processPromptLines lines)).length
            language)
          (replicatePrompts k (processPromptLines lines)))).2 ++
      (List.range r.2.1.length).map
        (fun i => Event.saveDialogue ("dialogue_" ++ toString i ++ ".pkl")) ++
      [Event.writeReport] ∧
    r.2.2.count Event.writeReport = 1 := by
  intro r
  have hr : r = generate_batched lazy stages taskId outputDir language lines k [] := rfl
  set prompts := replicatePrompts k (processPromptLines lines) with hprompts
  have hrep : r = (⟨taskId, prompts.length,
      (assignIds (pipelineLoop lazy stages 0 ResClass.content
        (StageInput.params prompts.length (List.replicate prompts.length language)
          prompts)).1).length, outputDir ++ "/" ++ taskId⟩,
      assignIds (pipelineLoop lazy stages 0 ResClass.content
        (StageInput.params prompts.length (List.replicate prompts.length language)
          prompts)).1,
      (pipelineLoop lazy stages 0 ResClass.content
        (StageInput.params prompts.length (List.replicate prompts.length language)
          prompts)).2 ++
        saveEvents (assignIds (pipelineLoop lazy stages 0 ResClass.content
          (StageInput.params prompts.length (List.replicate prompts.length language)
            prompts)).1) ++ [Event.writeReport]) := by
    rw [hr]
    rfl
  rw [hrep]
  set final := (pipelineLoop lazy stages 0 ResClass.content
    (StageInput.params prompts.length (List.replicate prompts.length language)
      prompts)).1 with hfinal
  refine ⟨rfl, by rw [← replicatePrompts_length k (processPromptLines lines)], rfl,
    ?_, rfl, ?_, ?_, ?_⟩
  · show (assignIds final).length ≤ prompts.length
    rw [assignIds_length, hfinal, pipelineLoop_fst]
    exact foldStages_length_le stages _ hmono
  · intro j d hjd
    rw [assignIds_get?] at hjd
    cases hg : final.get? j with
    | none => rw [hg] at hjd; cases hjd
    | some d0 =>
      rw [hg] at hjd
      simp only [Option.map_some'] at hjd
      cases hjd
      rfl
  · rw [saveEvents_eq]
  · rw [List.count_append, List.count_append]
    have h1 : ((pipelineLoop lazy stages 0 ResClass.content
        (StageInput.params prompts.length (List.replicate prompts.length language)
          prompts)).2).count Event.writeReport = 0 := by
      rw [List.count_eq_zero]
      intro hmem
      exact (pipelineLoop_events_shape lazy stages 0 _ _ _ hmem).1 rfl
    rw [h1, count_writeReport_saveEvents]
    rfl

/-- C8 witness: a one-stage pipeline that filters out its whole batch
still completes, reporting zero generated dialogues against one planned. -/
theorem C8_end_of_run_report_witness :
    (generate_batched false [⟨"S", ResClass.content, fun _ => []⟩]
      "t" "out" "English" ["p"] 1 []).1.num_generated_dialogues = 0 ∧
    (generate_batched false [⟨"S", ResClass.content, fun _ => []⟩]
      "t" "out" "English" ["p"] 1 []).1.num_planned_dialogues = 1 := by
  have h := C8_end_of_run_report false [⟨"S", ResClass.content, fun _ => []⟩]
    "t" "out" "English" ["p"] 1
    (by
      intro st hst j
      have : st = ⟨"S", ResClass.content, fun _ => []⟩ := by simpa using hst
      rw [this]
      exact Nat.zero_le _)
  refine ⟨h.2.2.1.trans (by decide), h.2.1.trans (by decide)⟩

/-- C1: resume-point determination.  With at least one checkpoint file,
whose parsed stage indices are pairwise distinct with maximum `m`
attained by file `(fm, bm)`: the orchestrator picks exactly that file,
executes exactly the stages `m+1 .. last` (their run events, in order,
are those of the suffix `stages.drop (m+1)`, and every executed stage
index is at least `m+1`), and the final batch is obtained by running the
remaining stages on the persisted batch `bm`.  With no checkpoint files,
it starts at stage 0 with the caller-supplied prompts. -/
theorem C1_resume_point (lazy : Bool) (stages : List Stage)
    (taskId outputDir language : String) (lines : List String) (k : Nat)
    (ckptFiles : List (String × List Dialogue))
    (fm : String) (bm : List Dialogue) (m : Nat)
    (hmem : (fm, bm) ∈ ckptFiles) (hm : stepIndexOf fm = m)
    (hmax : ∀ y ∈ ckptFiles, stepIndexOf y.1 ≤ m)
    (hnodup : (ckptFiles.map (fun f => stepIndexOf f.1)).Nodup) :
    resumeChoice ckptFiles = some (fm, bm) ∧
    runEvents (generate_batched lazy stages taskId outputDir language lines k
        ckptFiles).2.2 =
      (enumIdx (m + 1) (stages.drop (m + 1))).map
        (fun p => Event.runStage p.1 p.2.name) ∧
    (enumIdx (m + 1) (stages.drop (m + 1))).map Prod.fst =
      List.range' (m + 1) (stages.length - (m + 1)) ∧
    (∀ i nm, Event.runStage i nm ∈ (generate_batched lazy stages taskId outputDir
        language lines k ckptFiles).2.2 → m + 1 ≤ i) ∧
    (generate_batched lazy stages taskId outputDir language lines k ckptFiles).2.1 =
      assignIds (foldStages (stages.drop (m + 1)) (StageInput.batch bm)) ∧
    runEvents (generate_batched lazy stages taskId outputDir language lines k []).2.2 =
      (enumIdx 0 stages).map (fun p => Event.runStage p.1 p.2.name) ∧
    (generate_batched lazy stages taskId outputDir language lines k []).2.1 =
      assignIds (foldStages stages (StageInput.params
        (replicatePrompts k (processPromptLines lines)).length
        (List.replicate (replicatePrompts k (processPromptLines lines)).length
          language)
        (replicatePrompts k (processPromptLines lines)))) := by
  subst hm
  have hch : resumeChoice ckptFiles = some (fm, bm) :=
    resumeChoice_eq ckptFiles hmem rfl hmax hnodup
  have hrep : generate_batched lazy stages taskId outputDir language lines k ckptFiles =
      (⟨taskId, (replicatePrompts k (processPromptLines lines)).length,
        (assignIds (pipelineLoop lazy (stages.drop (stepIndexOf fm + 1))
          (stepIndexOf fm + 1) ((stages.getD (stepIndexOf fm) default).cls)
          (StageInput.batch bm)).1).length, outputDir ++ "/" ++ taskId⟩,
       assignIds (pipelineLoop lazy (stages.drop (stepIndexOf fm + 1))
         (stepIndexOf fm + 1) ((stages.getD (stepIndexOf fm) default).cls)
         (StageInput.batch bm)).1,
       (pipelineLoop lazy (stages.drop (stepIndexOf fm + 1)) (stepIndexOf fm + 1)
         ((stages.getD (stepIndexOf fm) default).cls) (StageInput.batch bm)).2 ++
         saveEvents (assignIds (pipelineLoop lazy (stages.drop (stepIndexOf fm + 1))
           (stepIndexOf fm + 1) ((stages.getD (stepIndexOf fm) default).cls)
           (StageInput.batch bm)).1) ++ [Event.writeReport]) := by
    unfold generate_batched
    rw [hch]
  have hrep0 : generate_batched lazy stages taskId outputDir language lines k [] =
      (⟨taskId, (replicatePrompts k (processPromptLines lines)).length,
        (assignIds (pipelineLoop lazy stages 0 ResClass.content
          (StageInput.params (replicatePrompts k (processPromptLines lines)).length
            (List.replicate (replicatePrompts k (processPromptLines lines)).length
              language)
            (replicatePrompts k (processPromptLines lines)))).1).length,
        outputDir ++ "/" ++ taskId⟩,
       assignIds (pipelineLoop lazy stages 0 ResClass.content
         (StageInput.params (replicatePrompts k (processPromptLines lines)).length
           (List.replicate (replicatePrompts k (processPromptLines lines)).length
             language)
           (replicatePrompts k (processPromptLines lines)))).1,
       (pipelineLoop lazy stages 0 ResClass.content
         (StageInput.params (replicatePrompts k (processPromptLines lines)).length
           (List.replicate (replicatePrompts k (processPromptLines lines)).length
             language)
           (replicatePrompts k (processPromptLines lines)))).2 ++
         saveEvents (assignIds (pipelineLoop lazy stages 0 ResClass.content
           (StageInput.params (replicatePrompts k (processPromptLines lines)).length
             (List.replicate (replicatePrompts k (processPromptLines lines)).length
               language)
             (replicatePrompts k (processPromptLines lines)))).1) ++
         [Event.writeReport]) := by
    unfold generate_batched
    rfl
  refine ⟨hch, ?_, ?_, ?_, ?_, ?_, ?_⟩
  · rw [hrep]
    show runEvents (_ ++ _ ++ _) = _
    rw [runEvents_append, runEvents_append, runEvents_saveEvents,
      pipelineLoop_runEvents]
    show _ ++ ([] ++ runEvents [Event.writeReport]) = _
    simp [runEvents, isRunEvent]
  · rw [enumIdx_map_fst, List.length_drop]
  · intro i nm hmem2
    rw [hrep] at hmem2
    rcases List.mem_append.mp hmem2 with h | h
    · rcases List.mem_append.mp h with h | h
      · have hre : Event.runStage i nm ∈ runEvents (pipelineLoop lazy
            (stages.drop (stepIndexOf fm + 1)) (stepIndexOf fm + 1)
            ((stages.getD (stepIndexOf fm) default).cls) (StageInput.batch bm)).2 :=
          List.mem_filter.mpr ⟨h, rfl⟩
        rw [pipelineLoop_runEvents] at hre
        rcases List.mem_map.mp hre with ⟨p, hp, hpe⟩
        have := mem_enumIdx_bounds hp
        cases hpe
        omega
      · rcases List.mem_map.mp h with ⟨p, _, hpe⟩
        cases hpe
    · have : Event.runStage i nm = Event.writeReport := by simpa using h
      cases this
  · rw [hrep]
    show assignIds _ = _
    rw [pipelineLoop_fst]
  · rw [hrep0]
    show runEvents (_ ++ _ ++ _) = _
    rw [runEvents_append, runEvents_append, runEvents_saveEvents,
      pipelineLoop_runEvents]
    show _ ++ ([] ++ runEvents [Event.writeReport]) = _
    simp [runEvents, isRunEvent]
  · rw [hrep0]
    show assignIds _ = _
    rw [pipelineLoop_fst]

/-- C1 witness: five stages, checkpoints for steps 0–3 present: the
restart executes exactly stage 4 on the persisted batch. -/
theorem C1_resume_point_witness :
    runEvents (generate_batched false
      [⟨"A", ResClass.content, fun _ => []⟩, ⟨"B", ResClass.content, fun _ => []⟩,
       ⟨"C", ResClass.content, fun _ => []⟩, ⟨"D", ResClass.content, fun _ => []⟩,
       ⟨"E", ResClass.speech, fun _ => []⟩]
      "t" "out" "English" ["p"] 1
      [("dialogues_step_0_A.pkl", []), ("dialogues_step_1_B.pkl", []),
       ("dialogues_step_2_C.pkl", []), ("dialogues_step_3_D.pkl", [])]).2.2 =
      [Event.runStage 4 "E"] := by
  have h := C1_resume_point false
    [⟨"A", ResClass.content, fun _ => []⟩, ⟨"B", ResClass.content, fun _ => []⟩,
     ⟨"C", ResClass.content, fun _ => []⟩, ⟨"D", ResClass.content, fun _ => []⟩,
     ⟨"E", ResClass.speech, fun _ => []⟩]
    "t" "out" "English" ["p"] 1
    [("dialogues_step_0_A.pkl", []), ("dialogues_step_1_B.pkl", []),
     ("dialogues_step_2_C.pkl", []), ("dialogues_step_3_D.pkl", [])]
    "dialogues_step_3_D.pkl" [] 3 (by decide) (by decide) (by decide) (by decide)
  refine h.2.1.trans ?_
  decide

/-- C9: model-lifecycle sequencing.  With lazy loading, whenever a
stage's resource class differs from the last loaded one, the LLM unload
is invoked immediately before that stage's module initialization; with
lazy loading off, the run invokes no unload and no initialization —
every batch-pipeline stage module was initialized up front by the
constructor (and with lazy loading on, the constructor defers exactly
the speech modules). -/
theorem C9_model_lifecycle (stages : List Stage) (i : Nat) (prevCls : ResClass)
    (inp : StageInput) :
    (∀ (j : Nat) (hj : j < stages.length),
      prevClassAt prevCls stages j ≠ (stages.get ⟨j, hj⟩).cls →
      ∃ pre suf, (pipelineLoop true stages i prevCls inp).2 =
        pre ++ [Event.unloadLLM, Event.initMod (stages.get ⟨j, hj⟩).name] ++ suf) ∧
    (∀ e ∈ (pipelineLoop false stages i prevCls inp).2,
      e ≠ Event.unloadLLM ∧ ∀ nm, e ≠ Event.initMod nm) ∧
    (∀ nm ∈ batchStageNames, Event.initMod nm ∈ ctorInitEvents false) ∧
    ctorInitEvents true = ctorAlwaysModules.map Event.initMod := by
  refine ⟨?_, ?_, by decide, by decide⟩
  · intro j hj hc
    exact pipelineLoop_unload_before_init stages i prevCls inp j hj hc
  · intro e he
    exact pipelineLoop_no_lifecycle stages i prevCls inp e he

/-- C9 witness: a content stage followed by a speech stage under lazy
loading: the trace contains the unload immediately before the speech
module's initialization. -/
theorem C9_model_lifecycle_witness :
    ∃ pre suf, (pipelineLoop true
      [⟨"A", ResClass.content, fun _ => []⟩, ⟨"B", ResClass.speech, fun _ => []⟩]
      0 ResClass.content (StageInput.batch [])).2 =
      pre ++ [Event.unloadLLM, Event.initMod "B"] ++ suf := by
  have h := (C9_model_lifecycle
    [⟨"A", ResClass.content, fun _ => []⟩, ⟨"B", ResClass.speech, fun _ => []⟩]
    0 ResClass.content (StageInput.batch [])).1 1 (by decide) (by decide)
  exact h

/-- C10: the interactive entry point requires a non-empty batch at every
stage boundary: with the progress callback installed, any stage
returning an empty batch makes `generate_sample_dialogue` raise (the
payload indexes `dialogues[0]`), and an empty final batch raises at the
final `dialogues[0]` for any callback setting — while the batch entry
point completes normally on an empty batch, writing its report once
with zero generated dialogues. -/
theorem C10_sample_nonempty_required :
    (∀ (stages : List Stage) (inp : StageInput),
      [] ∈ sampleBatches stages inp →
      ∃ e, generate_sample true stages inp = Except.error e) ∧
    (∀ (hc : Bool) (stages : List Stage) (inp : StageInput),
      sampleLoop hc stages inp [] = Except.ok [] →
      generate_sample hc stages inp = Except.error "IndexError: dialogues[0]") ∧
    (generate_batched false [⟨"S", ResClass.content, fun _ => []⟩]
      "t" "out" "English" ["p"] 1 []).1.num_generated_dialogues = 0 ∧
    ((generate_batched false [⟨"S", ResClass.content, fun _ => []⟩]
      "t" "out" "English" ["p"] 1 []).2.2).count Event.writeReport = 1 := by
  refine ⟨sample_error_of_empty, ?_, by decide, by decide⟩
  intro hc stages inp h
  unfold generate_sample
  rw [h]
  rfl

/-- C10 witness: a stage that filters out every record makes the
interactive entry point fail. -/
theorem C10_sample_nonempty_required_witness :
    ∃ e, generate_sample true [⟨"S", ResClass.content, fun _ => []⟩]
      (StageInput.params 1 ["English"] ["p"]) = Except.error e :=
  C10_sample_nonempty_required.1 [⟨"S", ResClass.content, fun _ => []⟩]
    (StageInput.params 1 ["English"] ["p"]) (by decide)

end SDF

